import Mathlib

set_option maxRecDepth 8192

/-!
Verification of the `lockbox` age-encryption bridge (`src/rust/src/lib.rs`).

The Rust source is a thin wrapper around the external `age` crate.  The
wrapper logic (armor-header detection, base64 transport, key-file line
parsing, recipient parsing, file reads/writes) is translated here directly
from the source.  The `age` crate itself is external library code, so it is
modelled as an ideal cipher that satisfies its documented contract: an
encrypted container records which recipients can open it and returns the
payload exactly when a matching identity is supplied.  All byte buffers are
`List Nat` with every entry `< 256`.
-/

/-! ## UTF-8 codec (model of Rust `str::as_bytes` / `String::from_utf8`) -/

/-- UTF-8 encoding of a single unicode scalar value, written arithmetically
(1 to 4 bytes depending on the scalar range). -/
def utf8EncodeScalar (n : Nat) : List Nat :=
  if n < 128 then [n]
  else if n < 2048 then [192 + n / 64, 128 + n % 64]
  else if n < 65536 then [224 + n / 4096, 128 + (n / 64) % 64, 128 + n % 64]
  else [240 + n / 262144, 128 + (n / 4096) % 64, 128 + (n / 64) % 64, 128 + n % 64]

/-- UTF-8 encoding of a character sequence. -/
def utf8EncodeChars (l : List Char) : List Nat :=
  l.flatMap (fun c => utf8EncodeScalar c.toNat)

/-- UTF-8 encoding of a `String` (model of Rust `str::as_bytes`). -/
def utf8Encode (s : String) : List Nat :=
  utf8EncodeChars s.data

/-- Turn a scalar value into a `Char` when it is a valid unicode scalar. -/
def charOfNat? (n : Nat) : Option Char :=
  if h : n.isValidChar then
    some ⟨⟨⟨n, by rcases h with h1 | h2 <;> omega⟩⟩, h⟩
  else none

/-- Whether a byte is a UTF-8 continuation byte. -/
def isContByte (b : Nat) : Bool := 128 ≤ b && b < 192

/-- Decode one UTF-8 scalar from the front of a byte list, returning the
character and the remaining bytes.  Rejects stray or missing continuation
bytes, overlong encodings, surrogates and out-of-range scalars, like Rust
`String::from_utf8`. -/
def utf8DecodeStep : List Nat → Option (Char × List Nat)
  | [] => none
  | b0 :: rest =>
    if b0 < 128 then (charOfNat? b0).map (fun c => (c, rest))
    else if b0 < 192 then none
    else if b0 < 224 then
      match rest with
      | b1 :: rest2 =>
        if isContByte b1 then
          if 128 ≤ (b0 - 192) * 64 + (b1 - 128) then
            (charOfNat? ((b0 - 192) * 64 + (b1 - 128))).map (fun c => (c, rest2))
          else none
        else none
      | [] => none
    else if b0 < 240 then
      match rest with
      | b1 :: b2 :: rest3 =>
        if isContByte b1 && isContByte b2 then
          if 2048 ≤ (b0 - 224) * 4096 + (b1 - 128) * 64 + (b2 - 128) then
            (charOfNat? ((b0 - 224) * 4096 + (b1 - 128) * 64 + (b2 - 128))).map
              (fun c => (c, rest3))
          else none
        else none
      | _ => none
    else if b0 < 248 then
      match rest with
      | b1 :: b2 :: b3 :: rest4 =>
        if isContByte b1 && isContByte b2 && isContByte b3 then
          if 65536 ≤ (b0 - 240) * 262144 + (b1 - 128) * 4096 + (b2 - 128) * 64 + (b3 - 128) then
            (charOfNat? ((b0 - 240) * 262144 + (b1 - 128) * 4096 + (b2 - 128) * 64 +
              (b3 - 128))).map (fun c => (c, rest4))
          else none
        else none
      | _ => none
    else none

/-- Fuel-indexed UTF-8 decoding loop; the fuel bounds the number of decoded
characters and is instantiated with the byte count. -/
def utf8DecodeFuel : Nat → List Nat → Option (List Char)
  | _, [] => some []
  | 0, _ :: _ => none
  | fuel + 1, b0 :: rest =>
    match utf8DecodeStep (b0 :: rest) with
    | some (c, rest2) =>
      match utf8DecodeFuel fuel rest2 with
      | some cs => some (c :: cs)
      | none => none
    | none => none

/-- Strict UTF-8 decoder over byte lists (model of Rust `String::from_utf8`). -/
def utf8Decode (l : List Nat) : Option (List Char) :=
  utf8DecodeFuel l.length l

/-- Decode a byte list into a `String` (model of Rust `String::from_utf8`). -/
def utf8DecodeString (l : List Nat) : Option String :=
  (utf8Decode l).map (fun cs => String.mk cs)

theorem charOfNat_toNat (c : Char) : charOfNat? c.toNat = some c := by
  have hv : Nat.isValidChar c.toNat := c.valid
  simp only [charOfNat?, dif_pos hv]
  rfl

theorem char_toNat_lt (c : Char) : c.toNat < 1114112 := by
  have hv : Nat.isValidChar c.toNat := c.valid
  rcases hv with h1 | h2 <;> omega

theorem utf8EncodeChars_nil : utf8EncodeChars [] = [] := rfl

theorem utf8EncodeChars_cons (c : Char) (cl : List Char) :
    utf8EncodeChars (c :: cl) = utf8EncodeScalar c.toNat ++ utf8EncodeChars cl := by
  simp [utf8EncodeChars]

theorem utf8DecodeStep_encodeScalar (c : Char) (rest : List Nat) :
    utf8DecodeStep (utf8EncodeScalar c.toNat ++ rest) = some (c, rest) := by
  have hlt : c.toNat < 1114112 := char_toNat_lt c
  have hoc : charOfNat? c.toNat = some c := charOfNat_toNat c
  set n := c.toNat with hn
  unfold utf8EncodeScalar
  by_cases h1 : n < 128
  · simp [if_pos h1, utf8DecodeStep, hoc]
  · by_cases h2 : n < 2048
    · simp only [if_pos h2, if_neg h1, List.cons_append, List.nil_append, utf8DecodeStep]
      have hb0a : ¬ (192 + n / 64 < 128) := by omega
      have hb0b : ¬ (192 + n / 64 < 192) := by omega
      have hb0c : 192 + n / 64 < 224 := by omega
      have hcont : isContByte (128 + n % 64) = true := by simp [isContByte]; omega
      simp only [if_neg hb0a, if_neg hb0b, if_pos hb0c, hcont, if_pos rfl]
      have h128 : 128 ≤ n := by omega
      have he : n / 64 * 64 + n % 64 = n := by omega
      simp [he, h128, hoc]
    · by_cases h3 : n < 65536
      · simp only [if_pos h3, if_neg h1, if_neg h2, List.cons_append, List.nil_append,
          utf8DecodeStep]
        have hb0a : ¬ (224 + n / 4096 < 128) := by omega
        have hb0b : ¬ (224 + n / 4096 < 192) := by omega
        have hb0c : ¬ (224 + n / 4096 < 224) := by omega
        have hb0d : 224 + n / 4096 < 240 := by omega
        have hc1 : isContByte (128 + n / 64 % 64) = true := by simp [isContByte]; omega
        have hc2 : isContByte (128 + n % 64) = true := by simp [isContByte]; omega
        simp only [if_neg hb0a, if_neg hb0b, if_neg hb0c, if_pos hb0d, hc1, hc2,
          Bool.and_self, if_pos rfl]
        have h2048 : 2048 ≤ n := by omega
        have he : n / 4096 * 4096 + n / 64 % 64 * 64 + n % 64 = n := by omega
        simp [he, h2048, hoc]
      · simp only [if_neg h1, if_neg h2, if_neg h3, List.cons_append, List.nil_append,
          utf8DecodeStep]
        have hb0a : ¬ (240 + n / 262144 < 128) := by omega
        have hb0b : ¬ (240 + n / 262144 < 192) := by omega
        have hb0c : ¬ (240 + n / 262144 < 224) := by omega
        have hb0d : ¬ (240 + n / 262144 < 240) := by omega
        have hb0e : 240 + n / 262144 < 248 := by omega
        have hc1 : isContByte (128 + n / 4096 % 64) = true := by simp [isContByte]; omega
        have hc2 : isContByte (128 + n / 64 % 64) = true := by simp [isContByte]; omega
        have hc3 : isContByte (128 + n % 64) = true := by simp [isContByte]; omega
        simp only [if_neg hb0a, if_neg hb0b, if_neg hb0c, if_neg hb0d, if_pos hb0e,
          hc1, hc2, hc3, Bool.and_self, if_pos rfl]
        have h65536 : 65536 ≤ n := by omega
        have he : n / 262144 * 262144 + n / 4096 % 64 * 4096 + n / 64 % 64 * 64 + n % 64 = n := by
          omega
        simp [he, h65536, hoc]

theorem utf8DecodeStep_shrinks (l r : List Nat) (c : Char)
    (h : utf8DecodeStep l = some (c, r)) : r.length < l.length := by
  match l with
  | [] => simp [utf8DecodeStep] at h
  | [b0] =>
    simp only [utf8DecodeStep] at h
    repeat' split at h
    all_goals
      first
      | contradiction
      | (obtain ⟨c2, hc2, heq2⟩ := Option.map_eq_some'.mp h
         injection heq2 with e1 e2
         subst e2
         simp only [List.length_cons, List.length_nil]
         omega)
  | [b0, b1] =>
    simp only [utf8DecodeStep] at h
    repeat' split at h
    all_goals
      first
      | contradiction
      | (obtain ⟨c2, hc2, heq2⟩ := Option.map_eq_some'.mp h
         injection heq2 with e1 e2
         subst e2
         simp only [List.length_cons, List.length_nil]
         omega)
  | [b0, b1, b2] =>
    simp only [utf8DecodeStep] at h
    repeat' split at h
    all_goals
      first
      | contradiction
      | (obtain ⟨c2, hc2, heq2⟩ := Option.map_eq_some'.mp h
         injection heq2 with e1 e2
         subst e2
         simp only [List.length_cons, List.length_nil]
         omega)
  | b0 :: b1 :: b2 :: b3 :: rest =>
    simp only [utf8DecodeStep] at h
    repeat' split at h
    all_goals
      first
      | contradiction
      | (obtain ⟨c2, hc2, heq2⟩ := Option.map_eq_some'.mp h
         injection heq2 with e1 e2
         subst e2
         simp only [List.length_cons, List.length_nil]
         omega)

theorem utf8DecodeFuel_nil (fuel : Nat) : utf8DecodeFuel fuel [] = some [] := by
  cases fuel <;> rfl

theorem utf8DecodeFuel_cons (fuel b0 : Nat) (rest : List Nat) :
    utf8DecodeFuel (fuel + 1) (b0 :: rest) =
      match utf8DecodeStep (b0 :: rest) with
      | some (c, rest2) =>
        match utf8DecodeFuel fuel rest2 with
        | some cs => some (c :: cs)
        | none => none
      | none => none := rfl

theorem utf8DecodeFuel_sufficient :
    ∀ (n : Nat) (l : List Nat) (fuel : Nat), l.length ≤ n → l.length ≤ fuel →
      utf8DecodeFuel fuel l = utf8DecodeFuel l.length l := by
  intro n
  induction n with
  | zero =>
    intro l fuel h1 h2
    have hl : l = [] := List.eq_nil_of_length_eq_zero (Nat.le_zero.mp h1)
    subst hl
    rw [utf8DecodeFuel_nil, utf8DecodeFuel_nil]
  | succ m ih =>
    intro l fuel h1 h2
    cases l with
    | nil => rw [utf8DecodeFuel_nil, utf8DecodeFuel_nil]
    | cons b0 rest =>
      cases fuel with
      | zero => simp at h2
      | succ f =>
        have hlen : (b0 :: rest).length = rest.length + 1 := by simp
        rw [hlen, utf8DecodeFuel_cons, utf8DecodeFuel_cons]
        cases hstep : utf8DecodeStep (b0 :: rest) with
        | none => rfl
        | some pr =>
          obtain ⟨c, rest2⟩ := pr
          have hsh : rest2.length < (b0 :: rest).length :=
            utf8DecodeStep_shrinks _ _ _ hstep
          rw [hlen] at hsh
          simp only [List.length_cons] at h1 h2
          have e1 : utf8DecodeFuel f rest2 = utf8DecodeFuel rest2.length rest2 :=
            ih rest2 f (by omega) (by omega)
          have e2 : utf8DecodeFuel rest.length rest2 = utf8DecodeFuel rest2.length rest2 :=
            ih rest2 rest.length (by omega) (by omega)
          dsimp only
          rw [e1, e2]

theorem utf8EncodeScalar_ne_nil (n : Nat) : utf8EncodeScalar n ≠ [] := by
  unfold utf8EncodeScalar
  split
  · simp
  · split
    · simp
    · split <;> simp

theorem utf8Decode_encodeChars (cl : List Char) (rest : List Nat) :
    utf8Decode (utf8EncodeChars cl ++ rest) =
      (utf8Decode rest).map (fun cs => cl ++ cs) := by
  induction cl with
  | nil =>
    simp only [utf8EncodeChars_nil, List.nil_append]
    cases utf8Decode rest <;> simp
  | cons c cl ih =>
    rw [utf8EncodeChars_cons, List.append_assoc]
    have hstep := utf8DecodeStep_encodeScalar c (utf8EncodeChars cl ++ rest)
    obtain ⟨b0, tail, hbt⟩ : ∃ b0 tail,
        utf8EncodeScalar c.toNat ++ (utf8EncodeChars cl ++ rest) = b0 :: tail := by
      cases he : utf8EncodeScalar c.toNat with
      | nil => exact absurd he (utf8EncodeScalar_ne_nil _)
      | cons x xs => exact ⟨x, xs ++ (utf8EncodeChars cl ++ rest), by simp⟩
    rw [hbt] at hstep ⊢
    show utf8DecodeFuel (b0 :: tail).length (b0 :: tail) = _
    have hlen : (b0 :: tail).length = tail.length + 1 := by simp
    rw [hlen, utf8DecodeFuel_cons, hstep]
    dsimp only
    have hrestlen : (utf8EncodeChars cl ++ rest).length ≤ tail.length := by
      have : (b0 :: tail).length =
          (utf8EncodeScalar c.toNat).length + (utf8EncodeChars cl ++ rest).length := by
        rw [← hbt]; simp
      have hne : 1 ≤ (utf8EncodeScalar c.toNat).length := by
        cases he : utf8EncodeScalar c.toNat with
        | nil => exact absurd he (utf8EncodeScalar_ne_nil _)
        | cons x xs => simp
      simp only [List.length_cons] at this
      omega
    have hsuff : utf8DecodeFuel tail.length (utf8EncodeChars cl ++ rest) =
        utf8DecodeFuel (utf8EncodeChars cl ++ rest).length (utf8EncodeChars cl ++ rest) :=
      utf8DecodeFuel_sufficient tail.length _ tail.length hrestlen hrestlen
    rw [hsuff]
    show (match utf8Decode (utf8EncodeChars cl ++ rest) with
      | some cs => some (c :: cs)
      | none => none) = _
    rw [ih]
    cases utf8Decode rest <;> simp

theorem utf8Decode_utf8Encode (s : String) :
    utf8Decode (utf8Encode s) = some s.data := by
  have h := utf8Decode_encodeChars s.data []
  simp only [List.append_nil] at h
  rw [utf8Encode, h]
  show (utf8DecodeFuel 0 []).map _ = _
  rw [utf8DecodeFuel_nil]
  simp

theorem utf8DecodeString_utf8Encode (s : String) :
    utf8DecodeString (utf8Encode s) = some s := by
  rw [utf8DecodeString, utf8Decode_utf8Encode]
  rfl

theorem utf8Encode_lt (s : String) : ∀ b ∈ utf8Encode s, b < 256 := by
  intro b hb
  simp only [utf8Encode, utf8EncodeChars, List.mem_flatMap] at hb
  obtain ⟨c, _, hbc⟩ := hb
  have hv : c.toNat < 1114112 := char_toNat_lt c
  unfold utf8EncodeScalar at hbc
  split at hbc
  · simp at hbc; omega
  · split at hbc
    · simp at hbc
      rcases hbc with h1 | h1 <;> omega
    · split at hbc
      · simp at hbc
        rcases hbc with h1 | h1 | h1 <;> omega
      · simp at hbc
        rcases hbc with h1 | h1 | h1 | h1 <;> omega

/-! ## Base64 codec (model of the Rust `base64` crate, STANDARD engine) -/

/-- An ASCII character built from a code point below 128. -/
def asciiChar (n : Nat) : Char :=
  if h : n < 128 then ⟨⟨⟨n, by omega⟩⟩, show Nat.isValidChar n from Or.inl (by omega)⟩ else 'A'

theorem asciiChar_toNat (n : Nat) (h : n < 128) : (asciiChar n).toNat = n := by
  simp only [asciiChar, dif_pos h]
  rfl

/-- The base64 alphabet: sextet value to character. -/
def sextetChar (v : Nat) : Char :=
  if v < 26 then asciiChar (65 + v)
  else if v < 52 then asciiChar (71 + v)
  else if v < 62 then asciiChar (v - 4)
  else if v = 62 then '+'
  else '/'

/-- The base64 alphabet: character to sextet value. -/
def sextetVal (c : Char) : Option Nat :=
  if 65 ≤ c.toNat ∧ c.toNat ≤ 90 then some (c.toNat - 65)
  else if 97 ≤ c.toNat ∧ c.toNat ≤ 122 then some (c.toNat - 71)
  else if 48 ≤ c.toNat ∧ c.toNat ≤ 57 then some (c.toNat + 4)
  else if c.toNat = 43 then some 62
  else if c.toNat = 47 then some 63
  else none

/-- Standard base64 encoding of a byte list, three bytes to four characters,
padded with `=`. -/
def base64Encode : List Nat → List Char
  | [] => []
  | [a] => [sextetChar (a / 4), sextetChar (a % 4 * 16), '=', '=']
  | [a, b] => [sextetChar (a / 4), sextetChar (a % 4 * 16 + b / 16), sextetChar (b % 16 * 4), '=']
  | a :: b :: d :: rest =>
    sextetChar (a / 4) :: sextetChar (a % 4 * 16 + b / 16) :: sextetChar (b % 16 * 4 + d / 64) ::
      sextetChar (d % 64) :: base64Encode rest
termination_by structural l => l

/-- Strict standard base64 decoding: requires canonical padding and zero
trailing bits, as the `base64` crate STANDARD engine does. -/
def base64Decode : List Char → Option (List Nat)
  | [] => some []
  | c0 :: c1 :: c2 :: c3 :: rest =>
    match sextetVal c0, sextetVal c1 with
    | some v0, some v1 =>
      if c2 = '=' then
        if c3 = '=' ∧ rest = [] then
          if v1 % 16 = 0 then some [v0 * 4 + v1 / 16] else none
        else none
      else
        match sextetVal c2 with
        | some v2 =>
          if c3 = '=' then
            if rest = [] then
              if v2 % 4 = 0 then some [v0 * 4 + v1 / 16, v1 % 16 * 16 + v2 / 4] else none
            else none
          else
            match sextetVal c3 with
            | some v3 =>
              match base64Decode rest with
              | some bs =>
                some ((v0 * 4 + v1 / 16) :: (v1 % 16 * 16 + v2 / 4) :: (v2 % 4 * 64 + v3) :: bs)
              | none => none
            | none => none
        | none => none
    | _, _ => none
  | _ => none
termination_by structural l => l

theorem sextetVal_sextetChar : ∀ v : Nat, v < 64 → sextetVal (sextetChar v) = some v := by
  decide

theorem sextetChar_ne_pad (v : Nat) : sextetChar v ≠ '=' := by
  have h61 : ('=' : Char).toNat = 61 := rfl
  unfold sextetChar
  split
  · intro h
    have := congrArg Char.toNat h
    rw [asciiChar_toNat _ (by omega), h61] at this
    omega
  · split
    · intro h
      have := congrArg Char.toNat h
      rw [asciiChar_toNat _ (by omega), h61] at this
      omega
    · split
      · intro h
        have := congrArg Char.toNat h
        rw [asciiChar_toNat _ (by omega), h61] at this
        omega
      · split
        · intro h
          have := congrArg Char.toNat h
          rw [h61] at this
          simp at this
        · intro h
          have := congrArg Char.toNat h
          rw [h61] at this
          simp at this

theorem sextetChar_ne_dash (v : Nat) : sextetChar v ≠ '-' := by
  have h45 : ('-' : Char).toNat = 45 := rfl
  unfold sextetChar
  split
  · intro h
    have := congrArg Char.toNat h
    rw [asciiChar_toNat _ (by omega), h45] at this
    omega
  · split
    · intro h
      have := congrArg Char.toNat h
      rw [asciiChar_toNat _ (by omega), h45] at this
      omega
    · split
      · rename_i h1 h2 h3
        intro h
        have := congrArg Char.toNat h
        rw [asciiChar_toNat _ (by omega), h45] at this
        omega
      · split
        · intro h
          have := congrArg Char.toNat h
          rw [h45] at this
          simp at this
        · intro h
          have := congrArg Char.toNat h
          rw [h45] at this
          simp at this

theorem base64Decode_base64Encode :
    ∀ (n : Nat) (l : List Nat), l.length ≤ n → (∀ b ∈ l, b < 256) →
      base64Decode (base64Encode l) = some l := by
  intro n
  induction n with
  | zero =>
    intro l h1 h2
    have hl : l = [] := List.eq_nil_of_length_eq_zero (Nat.le_zero.mp h1)
    subst hl
    rfl
  | succ m ih =>
    intro l h1 h2
    match l with
    | [] => rfl
    | [a] =>
      have ha : a < 256 := h2 a (by simp)
      have hv0 := sextetVal_sextetChar (a / 4) (by omega)
      have hv1 := sextetVal_sextetChar (a % 4 * 16) (by omega)
      simp only [base64Encode, base64Decode, hv0, hv1]
      have hmod : a % 4 * 16 % 16 = 0 := by omega
      simp [hmod]
      omega
    | [a, b] =>
      have ha : a < 256 := h2 a (by simp)
      have hb : b < 256 := h2 b (by simp)
      have hv0 := sextetVal_sextetChar (a / 4) (by omega)
      have hv1 := sextetVal_sextetChar (a % 4 * 16 + b / 16) (by omega)
      have hv2 := sextetVal_sextetChar (b % 16 * 4) (by omega)
      have hne : ¬ (sextetChar (b % 16 * 4) = '=') := sextetChar_ne_pad _
      simp only [base64Encode, base64Decode, hv0, hv1, hv2, if_neg hne]
      have hmod : b % 16 * 4 % 4 = 0 := by omega
      simp [hmod]
      omega
    | a :: b :: d :: rest =>
      have ha : a < 256 := h2 a (by simp)
      have hb : b < 256 := h2 b (by simp)
      have hd : d < 256 := h2 d (by simp)
      have hv0 := sextetVal_sextetChar (a / 4) (by omega)
      have hv1 := sextetVal_sextetChar (a % 4 * 16 + b / 16) (by omega)
      have hv2 := sextetVal_sextetChar (b % 16 * 4 + d / 64) (by omega)
      have hv3 := sextetVal_sextetChar (d % 64) (by omega)
      have hne2 : ¬ (sextetChar (b % 16 * 4 + d / 64) = '=') := sextetChar_ne_pad _
      have hne3 : ¬ (sextetChar (d % 64) = '=') := sextetChar_ne_pad _
      have hrec : base64Decode (base64Encode rest) = some rest := by
        apply ih rest
        · simp at h1; omega
        · intro x hx
          exact h2 x (by simp [hx])
      simp only [base64Encode, base64Decode, hv0, hv1, hv2, hv3, if_neg hne2, if_neg hne3, hrec]
      simp
      omega

theorem base64Encode_head (l : List Nat) :
    base64Encode l = [] ∨ ∃ v rest2, base64Encode l = sextetChar v :: rest2 := by
  match l with
  | [] => exact Or.inl rfl
  | [a] => exact Or.inr ⟨a / 4, _, rfl⟩
  | [a, b] => exact Or.inr ⟨a / 4, _, rfl⟩
  | a :: b :: d :: rest => exact Or.inr ⟨a / 4, _, rfl⟩

/-! ## Generic list helper lemmas -/

theorem take_length_append {α : Type} (l r : List α) : (l ++ r).take l.length = l := by
  induction l with
  | nil => simp
  | cons a as ih => simp [ih]

theorem drop_length_append {α : Type} (l r : List α) : (l ++ r).drop l.length = r := by
  induction l with
  | nil => simp
  | cons a as ih => simp [ih]

theorem isPrefixOf_append_self {α : Type} [BEq α] [LawfulBEq α] (l r : List α) :
    l.isPrefixOf (l ++ r) = true := by
  induction l with
  | nil => simp [List.isPrefixOf]
  | cons a as ih => simp [List.isPrefixOf, ih]

theorem isPrefixOf_iff_take {α : Type} [BEq α] [LawfulBEq α] :
    ∀ (p l : List α), p.isPrefixOf l = true ↔ l.take p.length = p := by
  intro p
  induction p with
  | nil => intro l; simp [List.isPrefixOf]
  | cons a as ih =>
    intro l
    cases l with
    | nil => simp [List.isPrefixOf]
    | cons b bs =>
      simp only [List.isPrefixOf, Bool.and_eq_true, beq_iff_eq, List.length_cons,
        List.take_succ_cons, List.cons.injEq, ih bs]
      constructor
      · rintro ⟨h1, h2⟩; exact ⟨h1.symm, h2⟩
      · rintro ⟨h1, h2⟩; exact ⟨h1.symm, h2⟩

/-! ## Ideal model of the external `age` crate

The `age` crate is a dependency, not part of this repository, so its
cryptography is modelled as an ideal cipher.  Key material is modelled by a
natural-number scalar; the Bech32 textual encodings of secret keys
(`AGE-SECRET-KEY-...`) and recipients (`age1...`) are modelled as the fixed
marker followed by an injective textual encoding of the scalar, with parse
as its partial inverse (any unparseable suffix is rejected, matching
`age::x25519::Identity::from_str` rejecting malformed Bech32 data). -/

/-- The fixed secret-key line marker from the source, `AGE-SECRET-KEY-`. -/
def secretKeyMarker : List Char := "AGE-SECRET-KEY-".data

/-- The fixed recipient marker modelling the Bech32 `age1` human-readable part. -/
def recipientMarker : List Char := "age1".data

/-- Injective textual model of the Bech32 data part for scalar `n`. -/
def scalarChars (n : Nat) : List Char := List.replicate n 'q'

/-- Partial inverse of `scalarChars`: accepts exactly its image. -/
def scalarParse : List Char → Option Nat
  | [] => some 0
  | c :: rest => if c = 'q' then (scalarParse rest).map (fun n => n + 1) else none

/-- The public counterpart of a private scalar (injective; models
`age::x25519::Identity::to_public`). -/
def toPublic (n : Nat) : Nat := n + 1

/-- Textual encoding of a secret key (model of the `Display` of
`age::x25519::Identity`). -/
def secretChars (n : Nat) : List Char := secretKeyMarker ++ scalarChars n

/-- Textual encoding of a recipient (model of the `Display` of
`age::x25519::Recipient`). -/
def recipientChars (pub : Nat) : List Char := recipientMarker ++ scalarChars pub

/-- Recipient string form. -/
def recipientString (pub : Nat) : String := String.mk (recipientChars pub)

/-- Model of `age::x25519::Identity::from_str` on one line. -/
def x25519ParseIdentity (line : List Char) : Option Nat :=
  if secretKeyMarker.isPrefixOf line then scalarParse (line.drop 15) else none

/-- Model of `str::parse::<age::x25519::Recipient>`. -/
def x25519ParseRecipient (s : String) : Option Nat :=
  if recipientMarker.isPrefixOf s.data then scalarParse (s.data.drop 4) else none

theorem scalarParse_scalarChars (n : Nat) : scalarParse (scalarChars n) = some n := by
  induction n with
  | zero => rfl
  | succ m ih =>
    simp [scalarChars, List.replicate_succ, scalarParse]
    exact ih

theorem x25519ParseIdentity_secretChars (n : Nat) :
    x25519ParseIdentity (secretChars n) = some n := by
  have hpfx : secretKeyMarker.isPrefixOf (secretKeyMarker ++ scalarChars n) = true :=
    isPrefixOf_append_self _ _
  have hdrop : (secretKeyMarker ++ scalarChars n).drop 15 = scalarChars n :=
    drop_length_append secretKeyMarker (scalarChars n)
  simp [x25519ParseIdentity, secretChars, hpfx, hdrop, scalarParse_scalarChars]

theorem x25519ParseRecipient_recipientString (pub : Nat) :
    x25519ParseRecipient (recipientString pub) = some pub := by
  have hpfx : recipientMarker.isPrefixOf (recipientMarker ++ scalarChars pub) = true :=
    isPrefixOf_append_self _ _
  have hdrop : (recipientMarker ++ scalarChars pub).drop 4 = scalarChars pub :=
    drop_length_append recipientMarker (scalarChars pub)
  simp [x25519ParseRecipient, recipientString, recipientChars, hpfx, hdrop,
    scalarParse_scalarChars]

/-- A decryption identity: an x25519 private scalar or a passphrase-derived
scrypt identity. -/
inductive AgeIdentity where
  | x25519 (sec : Nat)
  | scrypt (pass : String)
deriving DecidableEq

/-- An encryption recipient: an x25519 public key or a passphrase. -/
inductive AgeRecipient where
  | x25519 (pub : Nat)
  | scrypt (pass : String)
deriving DecidableEq

/-- A wrapped-file-key stanza of the container header, one per recipient. -/
inductive AgeStanza where
  | x25519 (pub : Nat)
  | scrypt (pass : String)
deriving DecidableEq

/-- Ideal model of an age container: the header stanzas plus the payload the
file key protects. -/
structure AgeContainer where
  stanzas : List AgeStanza
  payload : List Nat
deriving DecidableEq

/-- Error taxonomy of the bridge.  Every Rust error is `Error::Other(msg)`;
the constructors here model the distinct message families produced by the
source: `ioFailure` for file read/write failures, `formatError msg` for
parse failures (identity, recipient, base64, container header),
`noIdentity` for "No valid age identities found", `invalidArguments` for
"At least one recipient is required", `decryptionFailure` for "Failed to
decrypt", and `encodingFailure` for UTF-8 conversion failures. -/
inductive AgeError where
  | ioFailure
  | formatError (msg : String)
  | noIdentity
  | invalidArguments
  | decryptionFailure
  | encodingFailure
deriving DecidableEq

/-- The stanza an encryptor writes for a recipient. -/
def stanzaFor : AgeRecipient → AgeStanza
  | .x25519 pub => .x25519 pub
  | .scrypt pass => .scrypt pass

/-- Ideal model of age encryption: wrap the file key for every recipient and
keep the payload. -/
def ageEncryptBytes (plaintext : List Nat) (recips : List AgeRecipient) : AgeContainer :=
  { stanzas := recips.map stanzaFor, payload := plaintext }

/-- Whether an identity unwraps a stanza: the x25519 scalar must be the
private counterpart of the stanza public key, and a scrypt identity must
hold the exact passphrase. -/
def unwrapOk (id : AgeIdentity) (st : AgeStanza) : Bool :=
  match id, st with
  | .x25519 sec, .x25519 pub => pub == toPublic sec
  | .scrypt p, .scrypt q => p == q
  | _, _ => false

/-! ## Container serialization (ideal model of the age binary format) -/

/-- Self-delimiting encoding of a natural number into bytes. -/
def encNat (n : Nat) : List Nat := List.replicate n 0 ++ [255]

/-- Partial inverse of `encNat`, returning the remaining bytes. -/
def decNat : List Nat → Option (Nat × List Nat)
  | [] => none
  | b :: rest =>
    if b = 255 then some (0, rest)
    else if b = 0 then (decNat rest).map (fun p => (p.1 + 1, p.2)) else none

theorem decNat_encNat (n : Nat) (rest : List Nat) :
    decNat (encNat n ++ rest) = some (n, rest) := by
  induction n with
  | zero => rfl
  | succ m ih =>
    have he : encNat (m + 1) ++ rest = 0 :: (encNat m ++ rest) := by
      simp [encNat, List.replicate_succ]
    rw [he]
    simp [decNat, ih]

theorem encNat_lt (n : Nat) : ∀ b ∈ encNat n, b < 256 := by
  intro b hb
  simp only [encNat, List.mem_append, List.mem_replicate, List.mem_singleton] at hb
  rcases hb with ⟨_, h⟩ | h <;> omega

/-- Byte serialization of one stanza. -/
def encStanza : AgeStanza → List Nat
  | .x25519 pub => 0 :: encNat pub
  | .scrypt pass => 1 :: (encNat (utf8Encode pass).length ++ utf8Encode pass)

/-- Partial inverse of `encStanza`. -/
def decStanza : List Nat → Option (AgeStanza × List Nat)
  | [] => none
  | 0 :: r => (decNat r).map (fun p => (AgeStanza.x25519 p.1, p.2))
  | 1 :: r =>
    match decNat r with
    | some (len, r2) =>
      if len ≤ r2.length then
        match utf8DecodeString (r2.take len) with
        | some pass => some (AgeStanza.scrypt pass, r2.drop len)
        | none => none
      else none
    | none => none
  | _ => none

theorem decStanza_encStanza (st : AgeStanza) (rest : List Nat) :
    decStanza (encStanza st ++ rest) = some (st, rest) := by
  cases st with
  | x25519 pub =>
    simp [encStanza, decStanza, decNat_encNat]
  | scrypt pass =>
    simp only [encStanza, List.cons_append, List.append_assoc]
    show decStanza (1 :: (encNat (utf8Encode pass).length ++ (utf8Encode pass ++ rest))) = _
    simp only [decStanza, decNat_encNat]
    have hlen : (utf8Encode pass).length ≤ (utf8Encode pass ++ rest).length := by simp
    rw [if_pos hlen, take_length_append, drop_length_append, utf8DecodeString_utf8Encode]

theorem encStanza_lt (st : AgeStanza) : ∀ b ∈ encStanza st, b < 256 := by
  intro b hb
  cases st with
  | x25519 pub =>
    simp only [encStanza, List.mem_cons] at hb
    rcases hb with h | h
    · omega
    · exact encNat_lt _ b h
  | scrypt pass =>
    simp only [encStanza, List.mem_cons, List.mem_append] at hb
    rcases hb with h | h | h
    · omega
    · exact encNat_lt _ b h
    · exact utf8Encode_lt _ b h

/-- Sequential parse of a known number of stanzas. -/
def decStanzas : Nat → List Nat → Option (List AgeStanza × List Nat)
  | 0, l => some ([], l)
  | n + 1, l =>
    match decStanza l with
    | some (st, r) =>
      match decStanzas n r with
      | some (sts, r2) => some (st :: sts, r2)
      | none => none
    | none => none

theorem decStanzas_flatMap (sts : List AgeStanza) (rest : List Nat) :
    decStanzas sts.length (sts.flatMap encStanza ++ rest) = some (sts, rest) := by
  induction sts with
  | nil => rfl
  | cons st sts ih =>
    simp only [List.length_cons, List.flatMap_cons, List.append_assoc]
    show decStanzas (sts.length + 1) (encStanza st ++ (sts.flatMap encStanza ++ rest)) = _
    simp [decStanzas, decStanza_encStanza, ih]

/-- The age binary magic bytes: the container starts with the version line
`age-encryption.org/v1`. -/
def magicBytes : List Nat := utf8Encode "age-encryption.org/v1\n"

/-- Byte serialization of a container (ideal model of the age binary
format: version line, header stanzas, payload). -/
def binSerialize (c : AgeContainer) : List Nat :=
  magicBytes ++ encNat c.stanzas.length ++ c.stanzas.flatMap encStanza ++
    encNat c.payload.length ++ c.payload

/-- Parse a byte buffer into a container (ideal model of
`age::Decryptor::new`). -/
def binDeserialize (l : List Nat) : Option AgeContainer :=
  if magicBytes.isPrefixOf l then
    match decNat (l.drop magicBytes.length) with
    | some (count, r1) =>
      match decStanzas count r1 with
      | some (sts, r2) =>
        match decNat r2 with
        | some (plen, r3) => if r3.length = plen then some ⟨sts, r3⟩ else none
        | none => none
      | none => none
    | none => none
  else none

theorem binDeserialize_binSerialize (c : AgeContainer) :
    binDeserialize (binSerialize c) = some c := by
  have hser : binSerialize c = magicBytes ++ (encNat c.stanzas.length ++
      (c.stanzas.flatMap encStanza ++ (encNat c.payload.length ++ c.payload))) := by
    simp [binSerialize, List.append_assoc]
  rw [hser]
  simp only [binDeserialize]
  rw [if_pos (isPrefixOf_append_self _ _), drop_length_append, decNat_encNat]
  dsimp only
  rw [decStanzas_flatMap]
  dsimp only
  rw [decNat_encNat]
  dsimp only
  rw [if_pos rfl]

theorem binSerialize_lt (c : AgeContainer) (hp : ∀ b ∈ c.payload, b < 256) :
    ∀ b ∈ binSerialize c, b < 256 := by
  intro b hb
  simp only [binSerialize, List.mem_append, List.mem_flatMap] at hb
  rcases hb with (((h | h) | ⟨st, _, h⟩) | h) | h
  · exact utf8Encode_lt _ b h
  · exact encNat_lt _ b h
  · exact encStanza_lt st b h
  · exact encNat_lt _ b h
  · exact hp b h

/-! ## Rust `str::lines` model -/

/-- Finish one accumulated (reversed) line, stripping one trailing carriage
return as Rust `str::lines` does. -/
def stripTrailingCR (acc : List Char) : List Char :=
  match acc with
  | c :: acc2 => if c = '\r' then acc2.reverse else (c :: acc2).reverse
  | [] => []

/-- Worker for `rustLines`: `acc` is the current line, reversed. -/
def rustLinesAux : List Char → List Char → List (List Char)
  | [], acc => [stripTrailingCR acc]
  | c :: rest, acc =>
    if c = '\n' then
      stripTrailingCR acc ::
        (match rest with
         | [] => []
         | _ :: _ => rustLinesAux rest [])
    else rustLinesAux rest (c :: acc)
termination_by structural l _ => l

/-- Model of Rust `str::lines`: split at newlines, no final empty line for a
trailing newline, one trailing `\r` stripped per line. -/
def rustLines (l : List Char) : List (List Char) :=
  match l with
  | [] => []
  | _ :: _ => rustLinesAux l []

theorem stripTrailingCR_reverse (a : List Char) (h : ¬ '\r' ∈ a) :
    stripTrailingCR a.reverse = a := by
  cases har : a.reverse with
  | nil =>
    have : a = [] := by simpa using congrArg List.reverse har
    subst this
    rfl
  | cons c t =>
    have hc : c ∈ a := by
      have : c ∈ a.reverse := by rw [har]; simp
      simpa using this
    have hcr : ¬ (c = '\r') := fun he => h (he ▸ hc)
    simp only [stripTrailingCR, if_neg hcr]
    rw [← har]
    simp

theorem rustLinesAux_append (a : List Char) :
    ∀ (acc rest : List Char), ¬ '\n' ∈ a →
      rustLinesAux (a ++ '\n' :: rest) acc =
        stripTrailingCR (a.reverse ++ acc) ::
          (match rest with
           | [] => []
           | _ :: _ => rustLinesAux rest []) := by
  induction a with
  | nil =>
    intro acc rest _
    simp [rustLinesAux]
  | cons c a2 ih =>
    intro acc rest hnl
    have hc : ¬ (c = '\n') := by
      intro he
      exact hnl (by simp [he])
    have ha2 : ¬ '\n' ∈ a2 := by
      intro hm
      exact hnl (by simp [hm])
    simp only [List.cons_append, rustLinesAux, if_neg hc, List.append_eq]
    rw [ih (c :: acc) rest ha2]
    simp

theorem rustLinesAux_last (a : List Char) :
    ∀ (acc : List Char), ¬ '\n' ∈ a →
      rustLinesAux a acc = [stripTrailingCR (a.reverse ++ acc)] := by
  induction a with
  | nil => intro acc _; simp [rustLinesAux]
  | cons c a2 ih =>
    intro acc hnl
    have hc : ¬ (c = '\n') := by
      intro he
      exact hnl (by simp [he])
    have ha2 : ¬ '\n' ∈ a2 := by
      intro hm
      exact hnl (by simp [hm])
    simp only [rustLinesAux, if_neg hc, List.append_eq]
    rw [ih (c :: acc) ha2]
    simp

theorem rustLines_append (a rest : List Char) (hnl : ¬ '\n' ∈ a) :
    rustLines (a ++ '\n' :: rest) = stripTrailingCR a.reverse :: rustLines rest := by
  have hne : a ++ '\n' :: rest ≠ [] := by simp
  obtain ⟨x, xs, hx⟩ : ∃ x xs, a ++ '\n' :: rest = x :: xs := by
    cases hl : a ++ '\n' :: rest with
    | nil => exact absurd hl hne
    | cons x xs => exact ⟨x, xs, rfl⟩
  have h0 : rustLines (x :: xs) = rustLinesAux (x :: xs) [] := rfl
  rw [hx, h0, ← hx, rustLinesAux_append a [] rest hnl]
  rw [List.append_nil]
  cases rest with
  | nil => rfl
  | cons y ys => rfl

theorem rustLines_single (a : List Char) (ha : a ≠ []) (hnl : ¬ '\n' ∈ a) :
    rustLines a = [stripTrailingCR a.reverse] := by
  obtain ⟨x, xs, hx⟩ : ∃ x xs, a = x :: xs := by
    cases hl : a with
    | nil => exact absurd hl ha
    | cons x xs => exact ⟨x, xs, rfl⟩
  have h0 : rustLines (x :: xs) = rustLinesAux (x :: xs) [] := rfl
  rw [hx, h0, ← hx, rustLinesAux_last a [] hnl]
  rw [List.append_nil]

/-! ## Armor codec and format detection -/

/-- The literal armor header line from the source. -/
def armorHeaderChars : List Char := "-----BEGIN AGE ENCRYPTED FILE-----".data

/-- The literal armor footer line. -/
def armorFooterChars : List Char := "-----END AGE ENCRYPTED FILE-----".data

/-- The armor header as UTF-8 bytes (the source compares byte buffers
against `b"-----BEGIN AGE ENCRYPTED FILE-----"`). -/
def armorHeaderBytes : List Nat := utf8Encode "-----BEGIN AGE ENCRYPTED FILE-----"

/-- Wrap base64 text into lines of at most 64 columns, each newline
terminated; the fuel is instantiated with the text length. -/
def chunkLines : Nat → List Char → List Char
  | 0, l => l ++ ['\n']
  | fuel + 1, l =>
    if l.length ≤ 64 then l ++ ['\n']
    else l.take 64 ++ '\n' :: chunkLines fuel (l.drop 64)

/-- Model of `age::armor::ArmoredWriter`: header line, base64 body wrapped
at 64 columns, footer line. -/
def armorWrap (b : List Nat) : List Char :=
  armorHeaderChars ++ '\n' ::
    (chunkLines (base64Encode b).length (base64Encode b) ++ (armorFooterChars ++ ['\n']))

/-- Model of `age::armor::ArmoredReader` envelope stripping: decode the
bytes as text, check the header line, collect body lines up to the footer,
and base64-decode the body. -/
def armorUnwrap (content : List Nat) : Option (List Nat) :=
  match utf8Decode content with
  | none => none
  | some chars =>
    match rustLines chars with
    | [] => none
    | first :: rest =>
      if first = armorHeaderChars then
        if rest.dropWhile (fun l => decide (l ≠ armorFooterChars)) = [] then none
        else base64Decode (rest.takeWhile (fun l => decide (l ≠ armorFooterChars))).flatten
      else none

/-- The two container serializations. -/
inductive AgeFormat where
  | binary
  | armored
deriving DecidableEq

/-- Modelled from the spec: the FormatDetector contract
`classify(bytes) -> Binary | Armored` — Armored exactly when the buffer
begins with the literal armor header. -/
def classifyFormat (content : List Nat) : AgeFormat :=
  if armorHeaderBytes.isPrefixOf content then AgeFormat.armored else AgeFormat.binary

/-- Ideal model of `age::Decryptor::decrypt`: some supplied identity must
unwrap some stanza, and then the payload is returned intact. -/
def tryUnwrap (c : AgeContainer) (identities : List AgeIdentity) : Except AgeError (List Nat) :=
  if c.stanzas.any (fun st => identities.any (fun idn => unwrapOk idn st)) then
    Except.ok c.payload
  else Except.error AgeError.decryptionFailure

/-- The binary branch of `decrypt_content`: `Decryptor::new` on the raw
bytes, then `decrypt`. -/
def decryptBinary (content : List Nat) (identities : List AgeIdentity) :
    Except AgeError (List Nat) :=
  match binDeserialize content with
  | none => Except.error (AgeError.formatError "Failed to create decryptor")
  | some c => tryUnwrap c identities

/-- The armored branch of `decrypt_content`: `ArmoredReader` plus
`Decryptor::new`, then `decrypt`. -/
def decryptArmored (content : List Nat) (identities : List AgeIdentity) :
    Except AgeError (List Nat) :=
  match armorUnwrap content with
  | none => Except.error (AgeError.formatError "Failed to create decryptor")
  | some bin =>
    match binDeserialize bin with
    | none => Except.error (AgeError.formatError "Failed to create decryptor")
    | some c => tryUnwrap c identities

/-- Translation of `decrypt_content` (src lines 11–43): dispatch on whether
the buffer starts with the literal armor header. -/
def decrypt_content (content : List Nat) (identities : List AgeIdentity) :
    Except AgeError (List Nat) :=
  if armorHeaderBytes.isPrefixOf content then decryptArmored content identities
  else decryptBinary content identities

/-! ## Identity and recipient parsing (src lines 50–67, 190–199, 290–299) -/

/-- The per-line loop of `parse_identities_from_key_file`: keep lines with
the `AGE-SECRET-KEY-` marker, parse each, fail hard on a marked line that
does not parse. -/
def parseIdLines : List (List Char) → Except AgeError (List AgeIdentity)
  | [] => Except.ok []
  | line :: rest =>
    if secretKeyMarker.isPrefixOf line then
      match x25519ParseIdentity line with
      | some sec =>
        match parseIdLines rest with
        | Except.ok ids => Except.ok (AgeIdentity.x25519 sec :: ids)
        | Except.error e => Except.error e
      | none => Except.error (AgeError.formatError "Failed to parse identity")
    else parseIdLines rest

/-- Translation of `parse_identities_from_key_file` (src lines 50–67). -/
def parse_identities_from_key_file (keyContent : String) :
    Except AgeError (List AgeIdentity) :=
  match parseIdLines (rustLines keyContent.data) with
  | Except.error e => Except.error e
  | Except.ok ids => if ids.isEmpty then Except.error AgeError.noIdentity else Except.ok ids

/-- The significant lines of a key file: those starting with the marker. -/
def sigLines (k : String) : List (List Char) :=
  (rustLines k.data).filter (fun l => secretKeyMarker.isPrefixOf l)

/-- The recipient-parsing loop shared by `age_encrypt_key` (src lines
190–195) and `age_encrypt_string_with_key` (src lines 290–295): parse each
string, failing on the first unparseable one with a message naming it. -/
def parseRecipientsList : List String → Except AgeError (List AgeRecipient)
  | [] => Except.ok []
  | r :: rest =>
    match x25519ParseRecipient r with
    | some pub =>
      match parseRecipientsList rest with
      | Except.ok ps => Except.ok (AgeRecipient.x25519 pub :: ps)
      | Except.error e => Except.error e
    | none => Except.error (AgeError.formatError ("Invalid recipient " ++ r))

/-! ## String-variant operations (src lines 285–449) -/

/-- Translation of `age_encrypt_string_with_key` (src lines 285–346). -/
def age_encrypt_string_with_key (input : String) (recipients : List String) (armor : Bool) :
    Except AgeError String :=
  match parseRecipientsList recipients with
  | Except.error e => Except.error e
  | Except.ok parsed =>
    if parsed.isEmpty then Except.error AgeError.invalidArguments
    else
      if armor then
        Except.ok (String.mk (armorWrap (binSerialize (ageEncryptBytes (utf8Encode input) parsed))))
      else
        Except.ok (String.mk (base64Encode (binSerialize (ageEncryptBytes (utf8Encode input) parsed))))

/-- Translation of `age_encrypt_string_with_passphrase` (src lines
355–379): scrypt-encrypt the string and return standard base64. -/
def age_encrypt_string_with_passphrase (input pass : String) : Except AgeError String :=
  Except.ok (String.mk (base64Encode (binSerialize
    (ageEncryptBytes (utf8Encode input) [AgeRecipient.scrypt pass]))))

/-- The transport decoding shared by the string decrypt functions (src
lines 393–401 and 425–433): armor-headed input is used verbatim, anything
else is base64-decoded first. -/
def decodeTransport (enc : String) : Except AgeError (List Nat) :=
  if armorHeaderChars.isPrefixOf enc.data then Except.ok (utf8Encode enc)
  else
    match base64Decode enc.data with
    | some b => Except.ok b
    | none => Except.error (AgeError.formatError "Failed to decode base64")

/-- Translation of `age_decrypt_string_with_passphrase` (src lines
388–414). -/
def age_decrypt_string_with_passphrase (enc pass : String) : Except AgeError String :=
  match decodeTransport enc with
  | Except.error e => Except.error e
  | Except.ok encryptedBytes =>
    match decrypt_content encryptedBytes [AgeIdentity.scrypt pass] with
    | Except.error e => Except.error e
    | Except.ok plain =>
      match utf8DecodeString plain with
      | some s => Except.ok s
      | none => Except.error AgeError.encodingFailure

/-- Translation of `age_decrypt_string_with_key` (src lines 423–449), with
the private-key file read replaced by its content `keyContent`. -/
def age_decrypt_string_with_key (enc keyContent : String) : Except AgeError String :=
  match decodeTransport enc with
  | Except.error e => Except.error e
  | Except.ok encryptedBytes =>
    match parse_identities_from_key_file keyContent with
    | Except.error e => Except.error e
    | Except.ok ids =>
      match decrypt_content encryptedBytes ids with
      | Except.error e => Except.error e
      | Except.ok plain =>
        match utf8DecodeString plain with
        | some s => Except.ok s
        | none => Except.error AgeError.encodingFailure

/-! ## File-variant operations over an explicit file-system state -/

/-- In-memory file-system state: newest entry for a path wins. -/
structure FSState where
  files : List (String × List Nat)
deriving DecidableEq

/-- Read a whole file (model of `std::fs::read`). -/
def fsRead (fs : FSState) (p : String) : Option (List Nat) :=
  (fs.files.find? (fun e => e.1 == p)).map (fun e => e.2)

/-- Create or overwrite a file with the given bytes. -/
def fsWrite (fs : FSState) (p : String) (content : List Nat) : FSState :=
  ⟨(p, content) :: fs.files⟩

/-- The armored text `age_encrypt_key` actually leaves in the output file:
the source type-erases the `ArmoredWriter` into `Box<dyn Write>` and never
calls `ArmoredWriter::finish` (only `flush`, src lines 214–233), so only
the header line and the 64-character base64 lines of the complete 48-byte
chunks are written — the final partial base64 line and the footer line are
lost.  (The string variant does call `finish`, src lines 325–326.) -/
def armorLinesNoFinish : Nat → List Nat → List Char
  | 0, _ => []
  | fuel + 1, bytes =>
    if bytes.length < 48 then []
    else base64Encode (bytes.take 48) ++ '\n' :: armorLinesNoFinish fuel (bytes.drop 48)

/-- The truncated armored output of the un-finished `ArmoredWriter`:
header line plus complete base64 lines only, no footer. -/
def armorWrapTruncated (b : List Nat) : List Char :=
  armorHeaderChars ++ '\n' :: armorLinesNoFinish b.length b

/-- Translation of `age_encrypt_key` (src lines 185–236) with the file
system passed explicitly.  `File::create` truncates the output file to
empty before any encrypted byte is written; `writeOk` is the environment's
verdict on the subsequent buffered write (Rust `write_all`/`finish`/`flush`
are fallible).  With `armor` set, the written text is the truncated armor
of `armorLinesNoFinish`, because the source never calls
`ArmoredWriter::finish`. -/
def age_encrypt_key_fs (fs : FSState) (inputPath outputPath : String)
    (recipients : List String) (armor : Bool) (writeOk : Bool) :
    Except AgeError Unit × FSState :=
  match parseRecipientsList recipients with
  | Except.error e => (Except.error e, fs)
  | Except.ok parsed =>
    if parsed.isEmpty then (Except.error AgeError.invalidArguments, fs)
    else
      match fsRead fs inputPath with
      | none => (Except.error AgeError.ioFailure, fs)
      | some inputData =>
        if writeOk then
          (Except.ok (),
            fsWrite (fsWrite fs outputPath []) outputPath
              (if armor then
                utf8EncodeChars (armorWrapTruncated (binSerialize (ageEncryptBytes inputData parsed)))
               else binSerialize (ageEncryptBytes inputData parsed)))
        else (Except.error AgeError.ioFailure, fsWrite fs outputPath [])

/-! ## Key generation and public-key extraction (src lines 123–176) -/

/-- The key-file text written by `age_generate_key`: two `#` comment lines
(timestamp and public key) followed by the secret-key line, each newline
terminated. -/
def generateKeyContent (scalar : Nat) (ts : String) : String :=
  String.mk (("# created: ".data ++ ts.data) ++ '\n' ::
    (("# public key: ".data ++ recipientChars (toPublic scalar)) ++ '\n' ::
      (secretChars scalar ++ ['\n'])))

/-- Translation of `age_generate_key` (src lines 123–148) with the file
system explicit and the generated scalar and timestamp as parameters (the
source draws them from the RNG and the clock). -/
def age_generate_key_fs (fs : FSState) (keyFilePath : String) (scalar : Nat) (ts : String)
    (writeOk : Bool) : Except AgeError String × FSState :=
  if writeOk then
    (Except.ok (recipientString (toPublic scalar)),
      fsWrite (fsWrite fs keyFilePath []) keyFilePath (utf8Encode (generateKeyContent scalar ts)))
  else (Except.error AgeError.ioFailure, fsWrite fs keyFilePath [])

/-- The line loop of `age_extract_public_key` (src lines 166–175): the
public counterpart of the first marked line, a hard error on a marked line
that does not parse, `noIdentity` when no marked line exists. -/
def extractFirstRecipient : List (List Char) → Except AgeError String
  | [] => Except.error AgeError.noIdentity
  | line :: rest =>
    if secretKeyMarker.isPrefixOf line then
      match x25519ParseIdentity line with
      | some sec => Except.ok (recipientString (toPublic sec))
      | none => Except.error (AgeError.formatError "Failed to parse identity")
    else extractFirstRecipient rest

/-- Translation of `age_extract_public_key` (src lines 157–176) on the key
file content: it first validates the whole file through
`parse_identities_from_key_file`, then rescans for the first marked line. -/
def age_extract_public_key (keyContent : String) : Except AgeError String :=
  match parse_identities_from_key_file keyContent with
  | Except.error e => Except.error e
  | Except.ok _ => extractFirstRecipient (rustLines keyContent.data)

/-- File-path form of `age_extract_public_key`: read the key file
(`std::fs::read_to_string` fails on missing files and invalid UTF-8), then
extract. -/
def age_extract_public_key_fs (fs : FSState) (keyFilePath : String) : Except AgeError String :=
  match fsRead fs keyFilePath with
  | none => Except.error AgeError.ioFailure
  | some bytes =>
    match utf8DecodeString bytes with
    | none => Except.error AgeError.ioFailure
    | some content => age_extract_public_key content

/-! ## Supporting lemmas for the claims -/

theorem string_mk_data (l : List Char) : (String.mk l).data = l := rfl

theorem armorHeader_not_isPrefixOf_base64 (l : List Nat) :
    armorHeaderChars.isPrefixOf (base64Encode l) = false := by
  rcases base64Encode_head l with h | ⟨v, r2, h⟩
  · rw [h]; rfl
  · rw [h]
    have hne : sextetChar v ≠ '-' := sextetChar_ne_dash v
    have hbe : ('-' == sextetChar v) = false := by
      rw [beq_eq_false_iff_ne]
      intro he
      exact hne he.symm
    have hh : armorHeaderChars = '-' :: "----BEGIN AGE ENCRYPTED FILE-----".data := rfl
    rw [hh]
    simp [List.isPrefixOf, hbe]

theorem armorHeaderBytes_not_isPrefixOf_binSerialize (c : AgeContainer) :
    armorHeaderBytes.isPrefixOf (binSerialize c) = false := by
  have hm : magicBytes = 97 :: magicBytes.tail := by decide
  have hh : armorHeaderBytes = 45 :: armorHeaderBytes.tail := by decide
  have hs : binSerialize c = 97 :: (magicBytes.tail ++ (encNat c.stanzas.length ++
      c.stanzas.flatMap encStanza ++ encNat c.payload.length ++ c.payload)) := by
    rw [binSerialize]
    conv_lhs => rw [hm]
    simp
  rw [hs, hh]
  simp [List.isPrefixOf]

theorem decodeTransport_base64 (bytes : List Nat) (h : ∀ b ∈ bytes, b < 256) :
    decodeTransport (String.mk (base64Encode bytes)) = Except.ok bytes := by
  unfold decodeTransport
  rw [string_mk_data, armorHeader_not_isPrefixOf_base64]
  rw [if_neg (by simp)]
  rw [base64Decode_base64Encode bytes.length bytes (Nat.le_refl _) h]

theorem decrypt_content_binSerialize (c : AgeContainer) (ids : List AgeIdentity) :
    decrypt_content (binSerialize c) ids = tryUnwrap c ids := by
  unfold decrypt_content
  rw [armorHeaderBytes_not_isPrefixOf_binSerialize]
  rw [if_neg (by simp)]
  unfold decryptBinary
  rw [binDeserialize_binSerialize]

/-- Claim C1: for every UTF-8 string P and passphrase X, decrypting the
output of passphrase-mode string encryption with the same passphrase
returns P exactly, and decrypting it with any passphrase Y ≠ X fails with
DecryptionFailure. -/
theorem passphrase_string_roundtrip (P X Y : String) (hXY : Y ≠ X) :
    (age_encrypt_string_with_passphrase P X).bind
        (fun e => age_decrypt_string_with_passphrase e X) = Except.ok P ∧
    (age_encrypt_string_with_passphrase P X).bind
        (fun e => age_decrypt_string_with_passphrase e Y) =
      Except.error AgeError.decryptionFailure := by
  have hlt : ∀ b ∈ binSerialize (ageEncryptBytes (utf8Encode P) [AgeRecipient.scrypt X]),
      b < 256 := by
    apply binSerialize_lt
    intro b hb
    exact utf8Encode_lt P b hb
  have hbind : ∀ (Z : String), (age_encrypt_string_with_passphrase P X).bind
      (fun e => age_decrypt_string_with_passphrase e Z) =
      age_decrypt_string_with_passphrase
        (String.mk (base64Encode (binSerialize
          (ageEncryptBytes (utf8Encode P) [AgeRecipient.scrypt X])))) Z := by
    intro Z
    rfl
  have hdec : ∀ (Z : String), age_decrypt_string_with_passphrase
      (String.mk (base64Encode (binSerialize
        (ageEncryptBytes (utf8Encode P) [AgeRecipient.scrypt X])))) Z =
      match tryUnwrap (ageEncryptBytes (utf8Encode P) [AgeRecipient.scrypt X])
          [AgeIdentity.scrypt Z] with
      | Except.error e => Except.error e
      | Except.ok plain =>
        match utf8DecodeString plain with
        | some s => Except.ok s
        | none => Except.error AgeError.encodingFailure := by
    intro Z
    unfold age_decrypt_string_with_passphrase
    rw [decodeTransport_base64 _ hlt]
    dsimp only
    rw [decrypt_content_binSerialize]
  constructor
  · rw [hbind X, hdec X]
    have hun : tryUnwrap (ageEncryptBytes (utf8Encode P) [AgeRecipient.scrypt X])
        [AgeIdentity.scrypt X] = Except.ok (utf8Encode P) := by
      unfold tryUnwrap ageEncryptBytes
      simp [stanzaFor, unwrapOk]
    rw [hun]
    dsimp only
    rw [utf8DecodeString_utf8Encode]
  · rw [hbind Y, hdec Y]
    have hun : tryUnwrap (ageEncryptBytes (utf8Encode P) [AgeRecipient.scrypt X])
        [AgeIdentity.scrypt Y] = Except.error AgeError.decryptionFailure := by
      unfold tryUnwrap ageEncryptBytes
      have hbe : (Y == X) = false := by
        rw [beq_eq_false_iff_ne]
        exact hXY
      simp [stanzaFor, unwrapOk, hbe]
    rw [hun]

/-- Witness for C1 at concrete inputs. -/
theorem passphrase_string_roundtrip_witness :
    ("b" : String) ≠ "a" ∧
    ((age_encrypt_string_with_passphrase "hi" "a").bind
        (fun e => age_decrypt_string_with_passphrase e "a") = Except.ok "hi" ∧
      (age_encrypt_string_with_passphrase "hi" "a").bind
        (fun e => age_decrypt_string_with_passphrase e "b") =
        Except.error AgeError.decryptionFailure) :=
  ⟨by decide, passphrase_string_roundtrip "hi" "a" "b" (by decide)⟩

/-- Claim C2: before decryption, format classification is decided solely by
the buffer's prefix — Armored exactly when the first bytes equal the
literal armor header, Binary otherwise — classification is total, and
`decrypt_content` processes the buffer along the branch classification
picks. -/
theorem classify_by_literal_header (buf : List Nat) :
    (classifyFormat buf = AgeFormat.armored ↔
      buf.take armorHeaderBytes.length = armorHeaderBytes) ∧
    (classifyFormat buf = AgeFormat.armored ∨ classifyFormat buf = AgeFormat.binary) ∧
    (∀ buf2 : List Nat,
      buf.take armorHeaderBytes.length = buf2.take armorHeaderBytes.length →
      classifyFormat buf = classifyFormat buf2) ∧
    (∀ ids : List AgeIdentity, decrypt_content buf ids =
      match classifyFormat buf with
      | AgeFormat.armored => decryptArmored buf ids
      | AgeFormat.binary => decryptBinary buf ids) := by
  refine ⟨?_, ?_, ?_, ?_⟩
  · unfold classifyFormat
    by_cases h : armorHeaderBytes.isPrefixOf buf = true
    · simp only [h, if_true]
      simp only [true_iff]
      exact (isPrefixOf_iff_take _ _).mp h
    · simp only [h, if_false]
      constructor
      · intro hc; exact absurd hc (by simp)
      · intro hc
        exact absurd ((isPrefixOf_iff_take _ _).mpr hc) h
  · unfold classifyFormat
    by_cases h : armorHeaderBytes.isPrefixOf buf = true <;> simp [h]
  · intro buf2 heq
    unfold classifyFormat
    by_cases h : armorHeaderBytes.isPrefixOf buf = true
    · have h3 : buf2.take armorHeaderBytes.length = armorHeaderBytes := by
        rw [← heq]
        exact (isPrefixOf_iff_take _ _).mp h
      simp [h, (isPrefixOf_iff_take armorHeaderBytes buf2).mpr h3]
    · have h4 : ¬ armorHeaderBytes.isPrefixOf buf2 = true := by
        intro hc
        apply h
        apply (isPrefixOf_iff_take _ _).mpr
        rw [heq]
        exact (isPrefixOf_iff_take _ _).mp hc
      simp [h, h4]
  · intro ids
    unfold decrypt_content classifyFormat
    by_cases h : armorHeaderBytes.isPrefixOf buf = true <;> simp [h]

/-- Witness for C2 at a concrete armored-headed buffer. -/
theorem classify_by_literal_header_witness :
    (classifyFormat (armorHeaderBytes ++ [0]) = AgeFormat.armored ↔
      (armorHeaderBytes ++ [0]).take armorHeaderBytes.length = armorHeaderBytes) ∧
    (classifyFormat (armorHeaderBytes ++ [0]) = AgeFormat.armored ∨
      classifyFormat (armorHeaderBytes ++ [0]) = AgeFormat.binary) ∧
    (∀ buf2 : List Nat,
      (armorHeaderBytes ++ [0]).take armorHeaderBytes.length =
        buf2.take armorHeaderBytes.length →
      classifyFormat (armorHeaderBytes ++ [0]) = classifyFormat buf2) ∧
    (∀ ids : List AgeIdentity, decrypt_content (armorHeaderBytes ++ [0]) ids =
      match classifyFormat (armorHeaderBytes ++ [0]) with
      | AgeFormat.armored => decryptArmored (armorHeaderBytes ++ [0]) ids
      | AgeFormat.binary => decryptBinary (armorHeaderBytes ++ [0]) ids) :=
  classify_by_literal_header (armorHeaderBytes ++ [0])

theorem filterMap_length_of_isSome {α β : Type} (f : α → Option β) :
    ∀ (l : List α), (∀ x ∈ l, (f x).isSome = true) → (l.filterMap f).length = l.length := by
  intro l
  induction l with
  | nil => intro _; rfl
  | cons x xs ih =>
    intro h
    obtain ⟨y, hy⟩ := Option.isSome_iff_exists.mp (h x (by simp))
    simp only [List.filterMap_cons, hy, List.length_cons]
    rw [ih (fun z hz => h z (by simp [hz]))]

theorem parseIdLines_all_parse :
    ∀ (lines : List (List Char)),
      (∀ l ∈ lines, secretKeyMarker.isPrefixOf l = true → (x25519ParseIdentity l).isSome = true) →
      parseIdLines lines = Except.ok
        ((lines.filter (fun l => secretKeyMarker.isPrefixOf l)).filterMap
          (fun l => (x25519ParseIdentity l).map AgeIdentity.x25519)) := by
  intro lines
  induction lines with
  | nil => intro _; rfl
  | cons line rest ih =>
    intro h
    by_cases hs : secretKeyMarker.isPrefixOf line = true
    · obtain ⟨sec, hsec⟩ := Option.isSome_iff_exists.mp (h line (by simp) hs)
      simp only [parseIdLines, if_pos hs, hsec]
      rw [ih (fun z hz hsig => h z (by simp [hz]) hsig)]
      simp [List.filter_cons, hs, hsec]
    · simp only [parseIdLines, if_neg hs]
      rw [ih (fun z hz hsig => h z (by simp [hz]) hsig)]
      simp [List.filter_cons, hs]

theorem parseIdLines_has_bad :
    ∀ (lines : List (List Char)),
      (∃ l ∈ lines, secretKeyMarker.isPrefixOf l = true ∧ x25519ParseIdentity l = none) →
      parseIdLines lines = Except.error (AgeError.formatError "Failed to parse identity") := by
  intro lines
  induction lines with
  | nil => rintro ⟨l, hl, _⟩; simp at hl
  | cons line rest ih =>
    rintro ⟨l, hl, hsig, hnone⟩
    rcases List.mem_cons.mp hl with heq | hmem
    · subst heq
      cases hp : x25519ParseIdentity l with
      | none => simp [parseIdLines, hsig, hp]
      | some sec => rw [hp] at hnone; exact absurd hnone (by simp)
    · by_cases hs : secretKeyMarker.isPrefixOf line = true
      · cases hp : x25519ParseIdentity line with
        | none => simp [parseIdLines, hs, hp]
        | some sec =>
          simp only [parseIdLines, if_pos hs, hp]
          rw [ih ⟨l, hmem, hsig, hnone⟩]
      · simp only [parseIdLines, if_neg hs]
        exact ih ⟨l, hmem, hsig, hnone⟩

/-- Claim C3: identity parsing returns exactly one identity per line with
the `AGE-SECRET-KEY-` marker, in file order, silently skipping every other
line, and fails with NoIdentity when no such line exists.  (The marked
lines are assumed to parse; a marked line that does not parse is claim
C4's hard error.) -/
theorem identity_parsing_per_line (k : String)
    (h : ∀ l ∈ sigLines k, (x25519ParseIdentity l).isSome = true) :
    (sigLines k = [] → parse_identities_from_key_file k = Except.error AgeError.noIdentity) ∧
    (sigLines k ≠ [] → parse_identities_from_key_file k = Except.ok
        ((sigLines k).filterMap (fun l => (x25519ParseIdentity l).map AgeIdentity.x25519)) ∧
      ((sigLines k).filterMap
        (fun l => (x25519ParseIdentity l).map AgeIdentity.x25519)).length =
        (sigLines k).length) := by
  have hall : ∀ l ∈ rustLines k.data, secretKeyMarker.isPrefixOf l = true →
      (x25519ParseIdentity l).isSome = true := by
    intro l hl hsig
    exact h l (List.mem_filter.mpr ⟨hl, hsig⟩)
  have hparse := parseIdLines_all_parse (rustLines k.data) hall
  have hlen : ((sigLines k).filterMap
      (fun l => (x25519ParseIdentity l).map AgeIdentity.x25519)).length =
      (sigLines k).length := by
    apply filterMap_length_of_isSome
    intro x hx
    have := h x hx
    cases hp : x25519ParseIdentity x with
    | none => rw [hp] at this; simp at this
    | some sec => simp [hp]
  constructor
  · intro hempty
    unfold parse_identities_from_key_file
    rw [hparse]
    have : (rustLines k.data).filter (fun l => secretKeyMarker.isPrefixOf l) = [] := hempty
    rw [this]
    rfl
  · intro hne
    refine ⟨?_, hlen⟩
    unfold parse_identities_from_key_file
    rw [hparse]
    have hne2 : ((sigLines k).filterMap
        (fun l => (x25519ParseIdentity l).map AgeIdentity.x25519)) ≠ [] := by
      intro hc
      apply hne
      have := hlen
      rw [hc] at this
      simp at this
      exact List.eq_nil_of_length_eq_zero this.symm
    have hie : ((rustLines k.data).filter (fun l => secretKeyMarker.isPrefixOf l)).filterMap
        (fun l => (x25519ParseIdentity l).map AgeIdentity.x25519) =
        (sigLines k).filterMap (fun l => (x25519ParseIdentity l).map AgeIdentity.x25519) := rfl
    rw [hie]
    simp only [List.isEmpty_iff]
    rw [if_neg hne2]

/-- Witness for C3: a key file with one comment line and one key line. -/
theorem identity_parsing_per_line_witness :
    (∀ l ∈ sigLines (String.mk ("# c\nAGE-SECRET-KEY-q\n".data)),
      (x25519ParseIdentity l).isSome = true) ∧
    ((sigLines (String.mk ("# c\nAGE-SECRET-KEY-q\n".data)) = [] →
      parse_identities_from_key_file (String.mk ("# c\nAGE-SECRET-KEY-q\n".data)) =
        Except.error AgeError.noIdentity) ∧
    (sigLines (String.mk ("# c\nAGE-SECRET-KEY-q\n".data)) ≠ [] →
      parse_identities_from_key_file (String.mk ("# c\nAGE-SECRET-KEY-q\n".data)) = Except.ok
          ((sigLines (String.mk ("# c\nAGE-SECRET-KEY-q\n".data))).filterMap
            (fun l => (x25519ParseIdentity l).map AgeIdentity.x25519)) ∧
      ((sigLines (String.mk ("# c\nAGE-SECRET-KEY-q\n".data))).filterMap
        (fun l => (x25519ParseIdentity l).map AgeIdentity.x25519)).length =
        (sigLines (String.mk ("# c\nAGE-SECRET-KEY-q\n".data))).length)) :=
  ⟨by decide, identity_parsing_per_line (String.mk ("# c\nAGE-SECRET-KEY-q\n".data)) (by decide)⟩

/-- Claim C4: a line carrying the `AGE-SECRET-KEY-` marker that does not
parse as a private key makes identity parsing fail with a FormatError,
even when other lines parse. -/
theorem malformed_marked_line_is_hard_error (k : String)
    (h : ∃ l ∈ sigLines k, x25519ParseIdentity l = none) :
    parse_identities_from_key_file k =
      Except.error (AgeError.formatError "Failed to parse identity") := by
  obtain ⟨l, hl, hnone⟩ := h
  have hmem := List.mem_filter.mp hl
  have := parseIdLines_has_bad (rustLines k.data) ⟨l, hmem.1, hmem.2, hnone⟩
  unfold parse_identities_from_key_file
  rw [this]

/-- Witness for C4: the first key line parses, the second is corrupt. -/
theorem malformed_marked_line_is_hard_error_witness :
    (∃ l ∈ sigLines (String.mk ("AGE-SECRET-KEY-q\nAGE-SECRET-KEY-x\n".data)),
      x25519ParseIdentity l = none) ∧
    parse_identities_from_key_file (String.mk ("AGE-SECRET-KEY-q\nAGE-SECRET-KEY-x\n".data)) =
      Except.error (AgeError.formatError "Failed to parse identity") :=
  ⟨by decide,
    malformed_marked_line_is_hard_error
      (String.mk ("AGE-SECRET-KEY-q\nAGE-SECRET-KEY-x\n".data)) (by decide)⟩

theorem parseRecipientsList_first_bad :
    ∀ (pre : List String) (r : String) (post : List String),
      (∀ p ∈ pre, (x25519ParseRecipient p).isSome = true) →
      x25519ParseRecipient r = none →
      parseRecipientsList (pre ++ r :: post) =
        Except.error (AgeError.formatError ("Invalid recipient " ++ r)) := by
  intro pre
  induction pre with
  | nil =>
    intro r post _ hr
    simp [parseRecipientsList, hr]
  | cons p pre ih =>
    intro r post hpre hr
    obtain ⟨pub, hpub⟩ := Option.isSome_iff_exists.mp (hpre p (by simp))
    simp only [List.cons_append, parseRecipientsList, hpub, List.append_eq]
    rw [ih r post (fun z hz => hpre z (by simp [hz])) hr]

/-- Claim C5: an empty recipient list fails with InvalidArguments, a list
whose first unparseable entry is r fails with a FormatError naming r, and
in both cases the whole call fails before any encryption occurs — the
string variant returns no ciphertext and the file variant leaves the file
system untouched. -/
theorem recipient_parsing_contract
    (input : String) (armor : Bool) (fs : FSState) (inputPath outputPath : String)
    (writeOk : Bool) (pre : List String) (r : String) (post : List String)
    (hpre : ∀ p ∈ pre, (x25519ParseRecipient p).isSome = true)
    (hr : x25519ParseRecipient r = none) :
    (age_encrypt_string_with_key input [] armor = Except.error AgeError.invalidArguments) ∧
    (age_encrypt_key_fs fs inputPath outputPath [] armor writeOk =
      (Except.error AgeError.invalidArguments, fs)) ∧
    (age_encrypt_string_with_key input (pre ++ r :: post) armor =
      Except.error (AgeError.formatError ("Invalid recipient " ++ r))) ∧
    (age_encrypt_key_fs fs inputPath outputPath (pre ++ r :: post) armor writeOk =
      (Except.error (AgeError.formatError ("Invalid recipient " ++ r)), fs)) := by
  have hbad := parseRecipientsList_first_bad pre r post hpre hr
  refine ⟨rfl, rfl, ?_, ?_⟩
  · unfold age_encrypt_string_with_key
    rw [hbad]
  · unfold age_encrypt_key_fs
    rw [hbad]

/-- Witness for C5 with a valid recipient before a malformed one. -/
theorem recipient_parsing_contract_witness :
    ((∀ p ∈ ["age1q"], (x25519ParseRecipient p).isSome = true) ∧
      x25519ParseRecipient "bogus" = none) ∧
    ((age_encrypt_string_with_key "hi" [] false = Except.error AgeError.invalidArguments) ∧
    (age_encrypt_key_fs ⟨[]⟩ "in" "out" [] false true =
      (Except.error AgeError.invalidArguments, ⟨[]⟩)) ∧
    (age_encrypt_string_with_key "hi" (["age1q"] ++ "bogus" :: []) false =
      Except.error (AgeError.formatError ("Invalid recipient " ++ "bogus"))) ∧
    (age_encrypt_key_fs ⟨[]⟩ "in" "out" (["age1q"] ++ "bogus" :: []) false true =
      (Except.error (AgeError.formatError ("Invalid recipient " ++ "bogus")), ⟨[]⟩))) :=
  ⟨⟨by decide, by decide⟩,
    recipient_parsing_contract "hi" false ⟨[]⟩ "in" "out" true ["age1q"] "bogus" []
      (by decide) (by decide)⟩

/-- Claim C6: on string-variant decryption, input beginning with the
literal armor header is handed to decryption verbatim (no base64 step),
any other input is base64-decoded before decryption runs — failing with a
FormatError on invalid base64 — and the armor-header check takes
precedence over base64 decoding.  Stated for both the passphrase and the
private-key variant. -/
theorem string_decrypt_transport_precedence (enc pass keyContent : String) :
    (armorHeaderChars.isPrefixOf enc.data = true →
      (age_decrypt_string_with_passphrase enc pass =
        match decrypt_content (utf8Encode enc) [AgeIdentity.scrypt pass] with
        | Except.error e => Except.error e
        | Except.ok plain =>
          match utf8DecodeString plain with
          | some s => Except.ok s
          | none => Except.error AgeError.encodingFailure) ∧
      (age_decrypt_string_with_key enc keyContent =
        match parse_identities_from_key_file keyContent with
        | Except.error e => Except.error e
        | Except.ok ids =>
          match decrypt_content (utf8Encode enc) ids with
          | Except.error e => Except.error e
          | Except.ok plain =>
            match utf8DecodeString plain with
            | some s => Except.ok s
            | none => Except.error AgeError.encodingFailure)) ∧
    (armorHeaderChars.isPrefixOf enc.data = false →
      (∀ b : List Nat, base64Decode enc.data = some b →
        (age_decrypt_string_with_passphrase enc pass =
          match decrypt_content b [AgeIdentity.scrypt pass] with
          | Except.error e => Except.error e
          | Except.ok plain =>
            match utf8DecodeString plain with
            | some s => Except.ok s
            | none => Except.error AgeError.encodingFailure) ∧
        (age_decrypt_string_with_key enc keyContent =
          match parse_identities_from_key_file keyContent with
          | Except.error e => Except.error e
          | Except.ok ids =>
            match decrypt_content b ids with
            | Except.error e => Except.error e
            | Except.ok plain =>
              match utf8DecodeString plain with
              | some s => Except.ok s
              | none => Except.error AgeError.encodingFailure)) ∧
      (base64Decode enc.data = none →
        age_decrypt_string_with_passphrase enc pass =
          Except.error (AgeError.formatError "Failed to decode base64") ∧
        age_decrypt_string_with_key enc keyContent =
          Except.error (AgeError.formatError "Failed to decode base64"))) := by
  constructor
  · intro h
    have hdt : decodeTransport enc = Except.ok (utf8Encode enc) := by
      unfold decodeTransport
      rw [if_pos h]
    constructor
    · unfold age_decrypt_string_with_passphrase
      rw [hdt]
    · unfold age_decrypt_string_with_key
      rw [hdt]
  · intro h
    constructor
    · intro b hb
      have hdt : decodeTransport enc = Except.ok b := by
        unfold decodeTransport
        rw [if_neg (by simp [h]), hb]
      constructor
      · unfold age_decrypt_string_with_passphrase
        rw [hdt]
      · unfold age_decrypt_string_with_key
        rw [hdt]
    · intro hb
      have hdt : decodeTransport enc =
          Except.error (AgeError.formatError "Failed to decode base64") := by
        unfold decodeTransport
        rw [if_neg (by simp [h]), hb]
      constructor
      · unfold age_decrypt_string_with_passphrase
        rw [hdt]
      · unfold age_decrypt_string_with_key
        rw [hdt]

/-- Witness for C6 at a concrete armored input (the header alone). -/
theorem string_decrypt_transport_precedence_witness :
    (armorHeaderChars.isPrefixOf
        (String.mk armorHeaderChars).data = true →
      (age_decrypt_string_with_passphrase (String.mk armorHeaderChars) "p" =
        match decrypt_content (utf8Encode (String.mk armorHeaderChars))
            [AgeIdentity.scrypt "p"] with
        | Except.error e => Except.error e
        | Except.ok plain =>
          match utf8DecodeString plain with
          | some s => Except.ok s
          | none => Except.error AgeError.encodingFailure) ∧
      (age_decrypt_string_with_key (String.mk armorHeaderChars) "k" =
        match parse_identities_from_key_file "k" with
        | Except.error e => Except.error e
        | Except.ok ids =>
          match decrypt_content (utf8Encode (String.mk armorHeaderChars)) ids with
          | Except.error e => Except.error e
          | Except.ok plain =>
            match utf8DecodeString plain with
            | some s => Except.ok s
            | none => Except.error AgeError.encodingFailure)) ∧
    (armorHeaderChars.isPrefixOf (String.mk armorHeaderChars).data = false →
      (∀ b : List Nat, base64Decode (String.mk armorHeaderChars).data = some b →
        (age_decrypt_string_with_passphrase (String.mk armorHeaderChars) "p" =
          match decrypt_content b [AgeIdentity.scrypt "p"] with
          | Except.error e => Except.error e
          | Except.ok plain =>
            match utf8DecodeString plain with
            | some s => Except.ok s
            | none => Except.error AgeError.encodingFailure) ∧
        (age_decrypt_string_with_key (String.mk armorHeaderChars) "k" =
          match parse_identities_from_key_file "k" with
          | Except.error e => Except.error e
          | Except.ok ids =>
            match decrypt_content b ids with
            | Except.error e => Except.error e
            | Except.ok plain =>
              match utf8DecodeString plain with
              | some s => Except.ok s
              | none => Except.error AgeError.encodingFailure)) ∧
      (base64Decode (String.mk armorHeaderChars).data = none →
        age_decrypt_string_with_passphrase (String.mk armorHeaderChars) "p" =
          Except.error (AgeError.formatError "Failed to decode base64") ∧
        age_decrypt_string_with_key (String.mk armorHeaderChars) "k" =
          Except.error (AgeError.formatError "Failed to decode base64"))) :=
  string_decrypt_transport_precedence (String.mk armorHeaderChars) "p" "k"

/-- Claim C7: when a string encryption succeeds with armored output
requested, the returned value is the literal armored text — the armor
header line first, the armor footer line last — and with binary output
requested it is the standard base64 encoding of the binary container. -/
theorem string_encrypt_output_forms (input : String) (recipients : List String)
    (parsed : List AgeRecipient)
    (hp : parseRecipientsList recipients = Except.ok parsed)
    (hne : parsed ≠ []) :
    (age_encrypt_string_with_key input recipients true =
      Except.ok (String.mk (armorWrap (binSerialize (ageEncryptBytes (utf8Encode input) parsed)))) ∧
     ∃ body : List Char,
       armorWrap (binSerialize (ageEncryptBytes (utf8Encode input) parsed)) =
         armorHeaderChars ++ '\n' :: (body ++ (armorFooterChars ++ ['\n']))) ∧
    (age_encrypt_string_with_key input recipients false =
      Except.ok (String.mk (base64Encode (binSerialize (ageEncryptBytes (utf8Encode input) parsed))))) := by
  have hie : parsed.isEmpty = false := by
    cases parsed with
    | nil => exact absurd rfl hne
    | cons a as => rfl
  refine ⟨⟨?_, ?_⟩, ?_⟩
  · unfold age_encrypt_string_with_key
    rw [hp]
    dsimp only
    rw [hie]
    rfl
  · exact ⟨chunkLines (base64Encode (binSerialize
      (ageEncryptBytes (utf8Encode input) parsed))).length
        (base64Encode (binSerialize (ageEncryptBytes (utf8Encode input) parsed))), by
      unfold armorWrap
      simp⟩
  · unfold age_encrypt_string_with_key
    rw [hp]
    dsimp only
    rw [hie]
    rfl

/-- Witness for C7 with one concrete recipient. -/
theorem string_encrypt_output_forms_witness :
    (parseRecipientsList ["age1q"] = Except.ok [AgeRecipient.x25519 1] ∧
      ([AgeRecipient.x25519 1] : List AgeRecipient) ≠ []) ∧
    ((age_encrypt_string_with_key "hi" ["age1q"] true =
      Except.ok (String.mk (armorWrap (binSerialize
        (ageEncryptBytes (utf8Encode "hi") [AgeRecipient.x25519 1])))) ∧
     ∃ body : List Char,
       armorWrap (binSerialize (ageEncryptBytes (utf8Encode "hi") [AgeRecipient.x25519 1])) =
         armorHeaderChars ++ '\n' :: (body ++ (armorFooterChars ++ ['\n']))) ∧
    (age_encrypt_string_with_key "hi" ["age1q"] false =
      Except.ok (String.mk (base64Encode (binSerialize
        (ageEncryptBytes (utf8Encode "hi") [AgeRecipient.x25519 1])))))) :=
  ⟨⟨rfl, by decide⟩,
    string_encrypt_output_forms "hi" ["age1q"] [AgeRecipient.x25519 1] rfl (by decide)⟩

theorem extractFirstRecipient_none :
    ∀ (lines : List (List Char)),
      lines.filter (fun l => secretKeyMarker.isPrefixOf l) = [] →
      extractFirstRecipient lines = Except.error AgeError.noIdentity := by
  intro lines
  induction lines with
  | nil => intro _; rfl
  | cons line rest ih =>
    intro h
    by_cases hs : secretKeyMarker.isPrefixOf line = true
    · rw [List.filter_cons_of_pos hs] at h
      exact absurd h (by simp)
    · rw [List.filter_cons_of_neg hs] at h
      simp only [extractFirstRecipient, if_neg hs]
      exact ih h

theorem extractFirstRecipient_first :
    ∀ (lines : List (List Char)) (fl : List Char) (rest2 : List (List Char)),
      lines.filter (fun l => secretKeyMarker.isPrefixOf l) = fl :: rest2 →
      extractFirstRecipient lines =
        match x25519ParseIdentity fl with
        | some sec => Except.ok (recipientString (toPublic sec))
        | none => Except.error (AgeError.formatError "Failed to parse identity") := by
  intro lines
  induction lines with
  | nil => intro fl rest2 h; exact absurd h (by simp)
  | cons line rest ih =>
    intro fl rest2 h
    by_cases hs : secretKeyMarker.isPrefixOf line = true
    · rw [List.filter_cons_of_pos hs] at h
      injection h with h1 h2
      subst h1
      simp only [extractFirstRecipient, if_pos hs]
    · rw [List.filter_cons_of_neg hs] at h
      simp only [extractFirstRecipient, if_neg hs]
      exact ih fl rest2 h

/-- Counterexample to claim C8 as stated: this key file contains a valid
identity line (the first line parses), yet `age_extract_public_key` fails,
because it first validates every marked line through
`parse_identities_from_key_file` and the second marked line is corrupt. -/
theorem extract_public_key_claim_counterexample :
    ((rustLines (String.mk ("AGE-SECRET-KEY-q\nAGE-SECRET-KEY-x\n".data)).data).any
        (fun l => (x25519ParseIdentity l).isSome) = true) ∧
    age_extract_public_key (String.mk ("AGE-SECRET-KEY-q\nAGE-SECRET-KEY-x\n".data)) =
      Except.error (AgeError.formatError "Failed to parse identity") :=
  ⟨by decide, rfl⟩

/-- Claim C8, amended: for every key-file text whose marked
(`AGE-SECRET-KEY-`) lines all parse and which contains at least one such
line, `age_extract_public_key` succeeds and returns the public counterpart
of the first valid identity in the file. -/
theorem extract_public_key_first_identity (k : String)
    (h : ∀ l ∈ sigLines k, (x25519ParseIdentity l).isSome = true)
    (hne : sigLines k ≠ []) :
    ∃ (firstLine : List Char) (sec : Nat),
      (sigLines k).head? = some firstLine ∧
      x25519ParseIdentity firstLine = some sec ∧
      age_extract_public_key k = Except.ok (recipientString (toPublic sec)) := by
  obtain ⟨fl, rest2, hcons⟩ : ∃ fl rest2, sigLines k = fl :: rest2 := by
    cases hc : sigLines k with
    | nil => exact absurd hc hne
    | cons fl rest2 => exact ⟨fl, rest2, rfl⟩
  obtain ⟨sec, hsec⟩ := Option.isSome_iff_exists.mp (h fl (by rw [hcons]; simp))
  refine ⟨fl, sec, by rw [hcons]; rfl, hsec, ?_⟩
  have hall : ∀ l ∈ rustLines k.data, secretKeyMarker.isPrefixOf l = true →
      (x25519ParseIdentity l).isSome = true := by
    intro l hl hsig
    exact h l (List.mem_filter.mpr ⟨hl, hsig⟩)
  have hparse := parseIdLines_all_parse (rustLines k.data) hall
  have hlen : ((sigLines k).filterMap
      (fun l => (x25519ParseIdentity l).map AgeIdentity.x25519)).length =
      (sigLines k).length := by
    apply filterMap_length_of_isSome
    intro x hx
    have hy := h x hx
    cases hp : x25519ParseIdentity x with
    | none => rw [hp] at hy; simp at hy
    | some s2 => simp [hp]
  have hne2 : ((sigLines k).filterMap
      (fun l => (x25519ParseIdentity l).map AgeIdentity.x25519)) ≠ [] := by
    intro hc
    apply hne
    rw [hc] at hlen
    simp at hlen
    exact List.eq_nil_of_length_eq_zero hlen.symm
  unfold age_extract_public_key parse_identities_from_key_file
  rw [hparse]
  dsimp only
  have hie : ((rustLines k.data).filter (fun l => secretKeyMarker.isPrefixOf l)).filterMap
      (fun l => (x25519ParseIdentity l).map AgeIdentity.x25519) =
      (sigLines k).filterMap (fun l => (x25519ParseIdentity l).map AgeIdentity.x25519) := rfl
  rw [hie]
  simp only [List.isEmpty_iff]
  rw [if_neg hne2]
  rw [extractFirstRecipient_first (rustLines k.data) fl rest2 hcons, hsec]

/-- Witness for the amended C8: a comment line followed by one key line. -/
theorem extract_public_key_first_identity_witness :
    ((∀ l ∈ sigLines (String.mk ("# c\nAGE-SECRET-KEY-qq\n".data)),
      (x25519ParseIdentity l).isSome = true) ∧
      sigLines (String.mk ("# c\nAGE-SECRET-KEY-qq\n".data)) ≠ []) ∧
    (∃ (firstLine : List Char) (sec : Nat),
      (sigLines (String.mk ("# c\nAGE-SECRET-KEY-qq\n".data))).head? = some firstLine ∧
      x25519ParseIdentity firstLine = some sec ∧
      age_extract_public_key (String.mk ("# c\nAGE-SECRET-KEY-qq\n".data)) =
        Except.ok (recipientString (toPublic sec))) :=
  ⟨⟨by decide, by decide⟩,
    extract_public_key_first_identity (String.mk ("# c\nAGE-SECRET-KEY-qq\n".data))
      (by decide) (by decide)⟩

theorem fsRead_fsWrite_same (fs : FSState) (p : String) (content : List Nat) :
    fsRead (fsWrite fs p content) p = some content := by
  simp [fsRead, fsWrite, List.find?]

/-- Counterexample to claim C9 as stated: starting from a file system with
no output file, a write failure after the output file has been created
leaves the call failed and a partially written (empty, truncated) output
file observable — file-variant encryption is not atomic. -/
theorem file_encrypt_partial_output_counterexample :
    (age_encrypt_key_fs ⟨[("in", [104, 105])]⟩ "in" "out" ["age1q"] false false).1 =
      Except.error AgeError.ioFailure ∧
    fsRead ⟨[("in", [104, 105])]⟩ "out" = none ∧
    fsRead (age_encrypt_key_fs ⟨[("in", [104, 105])]⟩ "in" "out" ["age1q"] false false).2 "out" =
      some [] :=
  ⟨rfl, rfl, rfl⟩

theorem isPrefixOf_false_of_head_ne {α : Type} [BEq α] [LawfulBEq α] (p l : List α) (a b : α)
    (hp : p.head? = some a) (hl : l.head? = some b) (hne : a ≠ b) :
    p.isPrefixOf l = false := by
  cases p with
  | nil => simp at hp
  | cons x xs =>
    cases l with
    | nil => simp at hl
    | cons y ys =>
      simp only [List.head?_cons, Option.some.injEq] at hp hl
      have hbe : (x == y) = false := beq_eq_false_iff_ne.mpr (by rw [hp, hl]; exact hne)
      simp [List.isPrefixOf, hbe]

theorem armorLinesNoFinish_getLast :
    ∀ (fuel : Nat) (bytes : List Nat), armorLinesNoFinish fuel bytes = [] ∨
      (armorLinesNoFinish fuel bytes).getLast? = some '\n' := by
  intro fuel
  induction fuel with
  | zero => intro bytes; exact Or.inl rfl
  | succ f ih =>
    intro bytes
    by_cases h : bytes.length < 48
    · exact Or.inl (by simp [armorLinesNoFinish, h])
    · right
      simp only [armorLinesNoFinish, if_neg h]
      rcases ih (bytes.drop 48) with h2 | h2
      · rw [h2, List.getLast?_append_cons]
        rfl
      · have hne : armorLinesNoFinish f (bytes.drop 48) ≠ [] := by
          intro hc
          rw [hc] at h2
          simp at h2
        obtain ⟨a, as, hcons⟩ : ∃ a as, armorLinesNoFinish f (bytes.drop 48) = a :: as := by
          cases hc : armorLinesNoFinish f (bytes.drop 48) with
          | nil => exact absurd hc hne
          | cons a as => exact ⟨a, as, rfl⟩
        rw [hcons] at h2 ⊢
        rw [List.getLast?_append_cons,
          show ('\n' :: a :: as) = ['\n'] ++ a :: as from rfl, List.getLast?_append_cons]
        exact h2

theorem armorWrapTruncated_getLast (b : List Nat) :
    (armorWrapTruncated b).getLast? = some '\n' := by
  unfold armorWrapTruncated
  rcases armorLinesNoFinish_getLast b.length b with h | h
  · rw [h, List.getLast?_append_cons]
    rfl
  · have hne : armorLinesNoFinish b.length b ≠ [] := by
      intro hc
      rw [hc] at h
      simp at h
    obtain ⟨a, as, hcons⟩ : ∃ a as, armorLinesNoFinish b.length b = a :: as := by
      cases hc : armorLinesNoFinish b.length b with
      | nil => exact absurd hc hne
      | cons a as => exact ⟨a, as, rfl⟩
    rw [hcons] at h ⊢
    rw [List.getLast?_append_cons,
      show ('\n' :: a :: as) = ['\n'] ++ a :: as from rfl, List.getLast?_append_cons]
    exact h

theorem footer_not_suffix_of_truncated_armor (b : List Nat) :
    armorFooterChars.isSuffixOf (armorWrapTruncated b) = false := by
  show armorFooterChars.reverse.isPrefixOf (armorWrapTruncated b).reverse = false
  apply isPrefixOf_false_of_head_ne _ _ '-' '\n'
  · decide
  · rw [List.head?_reverse]
    exact armorWrapTruncated_getLast b
  · decide

/-- Claim C9, amended: failures before the output file is created
(recipient parsing, empty recipient list, input read) leave the file
system untouched, but file-based encryption creates and truncates the
output file before writing the ciphertext, so a write failure after that
point leaves a partially written (empty) output file.  Even on success the
result is not always complete: binary output is written whole, but armored
output is written without the final partial base64 line and without the
armor footer — `age_encrypt_key` never calls `ArmoredWriter::finish` — so
the armored file does not end with the footer line. -/
theorem file_encrypt_output_states (fs : FSState) (inputPath outputPath : String)
    (recipients : List String) (armor : Bool) (parsed : List AgeRecipient)
    (inputData : List Nat)
    (hp : parseRecipientsList recipients = Except.ok parsed) (hne : parsed ≠ [])
    (hin : fsRead fs inputPath = some inputData) :
    (∀ e, parseRecipientsList recipients = Except.error e →
      age_encrypt_key_fs fs inputPath outputPath recipients armor true = (Except.error e, fs)) ∧
    (age_encrypt_key_fs fs inputPath outputPath recipients armor false =
      (Except.error AgeError.ioFailure, fsWrite fs outputPath [])) ∧
    (fsRead (age_encrypt_key_fs fs inputPath outputPath recipients armor false).2 outputPath =
      some []) ∧
    (age_encrypt_key_fs fs inputPath outputPath recipients armor true =
      (Except.ok (), fsWrite (fsWrite fs outputPath []) outputPath
        (if armor then
          utf8EncodeChars (armorWrapTruncated (binSerialize (ageEncryptBytes inputData parsed)))
         else binSerialize (ageEncryptBytes inputData parsed)))) ∧
    (armorFooterChars.isSuffixOf
      (armorWrapTruncated (binSerialize (ageEncryptBytes inputData parsed))) = false) := by
  have hie : parsed.isEmpty = false := by
    cases parsed with
    | nil => exact absurd rfl hne
    | cons a as => rfl
  have hfail : age_encrypt_key_fs fs inputPath outputPath recipients armor false =
      (Except.error AgeError.ioFailure, fsWrite fs outputPath []) := by
    unfold age_encrypt_key_fs
    rw [hp]
    dsimp only
    rw [hie]
    simp [hin]
  refine ⟨?_, hfail, ?_, ?_, footer_not_suffix_of_truncated_armor _⟩
  · intro e he
    rw [he] at hp
    exact absurd hp (by simp)
  · rw [hfail]
    exact fsRead_fsWrite_same fs outputPath []
  · unfold age_encrypt_key_fs
    rw [hp]
    dsimp only
    rw [hie]
    simp [hin]

/-- Witness for the amended C9 at a concrete file system. -/
theorem file_encrypt_output_states_witness :
    (parseRecipientsList ["age1q"] = Except.ok [AgeRecipient.x25519 1] ∧
      ([AgeRecipient.x25519 1] : List AgeRecipient) ≠ [] ∧
      fsRead ⟨[("in", [104, 105])]⟩ "in" = some [104, 105]) ∧
    ((∀ e, parseRecipientsList ["age1q"] = Except.error e →
      age_encrypt_key_fs ⟨[("in", [104, 105])]⟩ "in" "out" ["age1q"] false true =
        (Except.error e, ⟨[("in", [104, 105])]⟩)) ∧
    (age_encrypt_key_fs ⟨[("in", [104, 105])]⟩ "in" "out" ["age1q"] false false =
      (Except.error AgeError.ioFailure, fsWrite ⟨[("in", [104, 105])]⟩ "out" [])) ∧
    (fsRead (age_encrypt_key_fs ⟨[("in", [104, 105])]⟩ "in" "out" ["age1q"] false false).2
      "out" = some []) ∧
    (age_encrypt_key_fs ⟨[("in", [104, 105])]⟩ "in" "out" ["age1q"] false true =
      (Except.ok (), fsWrite (fsWrite ⟨[("in", [104, 105])]⟩ "out" []) "out"
        (if false then
          utf8EncodeChars (armorWrapTruncated (binSerialize
            (ageEncryptBytes [104, 105] [AgeRecipient.x25519 1])))
         else binSerialize (ageEncryptBytes [104, 105] [AgeRecipient.x25519 1])))) ∧
    (armorFooterChars.isSuffixOf
      (armorWrapTruncated (binSerialize
        (ageEncryptBytes [104, 105] [AgeRecipient.x25519 1]))) = false)) :=
  ⟨⟨rfl, by decide, rfl⟩,
    file_encrypt_output_states ⟨[("in", [104, 105])]⟩ "in" "out" ["age1q"] false
      [AgeRecipient.x25519 1] [104, 105] rfl (by decide) rfl⟩

theorem mem_scalarChars_eq {c : Char} {n : Nat} (h : c ∈ scalarChars n) : c = 'q' := by
  simp only [scalarChars, List.mem_replicate] at h
  exact h.2

/-- Claim C10: when key generation succeeds and returns public-key string
s, the file written at the key path holds exactly one marked key line,
preceded by two `#` comment lines, and extracting the public key from that
file succeeds and returns the same s. -/
theorem generate_then_extract (fs : FSState) (p : String) (scalar : Nat) (ts : String)
    (hts : ∀ c ∈ ts.data, c ≠ '\n' ∧ c ≠ '\r') :
    (age_generate_key_fs fs p scalar ts true).1 =
      Except.ok (recipientString (toPublic scalar)) ∧
    rustLines (generateKeyContent scalar ts).data =
      ["# created: ".data ++ ts.data,
       "# public key: ".data ++ recipientChars (toPublic scalar),
       secretChars scalar] ∧
    sigLines (generateKeyContent scalar ts) = [secretChars scalar] ∧
    ("# created: ".data ++ ts.data).head? = some '#' ∧
    ("# public key: ".data ++ recipientChars (toPublic scalar)).head? = some '#' ∧
    age_extract_public_key_fs (age_generate_key_fs fs p scalar ts true).2 p =
      Except.ok (recipientString (toPublic scalar)) := by
  have hlit1 : ∀ c ∈ "# created: ".data, c ≠ '\n' ∧ c ≠ '\r' := by decide
  have hlit2 : ∀ c ∈ "# public key: ".data, c ≠ '\n' ∧ c ≠ '\r' := by decide
  have hlit3 : ∀ c ∈ "age1".data, c ≠ '\n' ∧ c ≠ '\r' := by decide
  have hlit4 : ∀ c ∈ secretKeyMarker, c ≠ '\n' ∧ c ≠ '\r' := by decide
  have hm1 : ∀ c ∈ ("# created: ".data ++ ts.data), c ≠ '\n' ∧ c ≠ '\r' := by
    intro c hc
    rcases List.mem_append.mp hc with h | h
    · exact hlit1 c h
    · exact hts c h
  have hm2 : ∀ c ∈ ("# public key: ".data ++ recipientChars (toPublic scalar)),
      c ≠ '\n' ∧ c ≠ '\r' := by
    intro c hc
    rcases List.mem_append.mp hc with h | h
    · exact hlit2 c h
    · rcases List.mem_append.mp h with h2 | h2
      · exact hlit3 c h2
      · rw [mem_scalarChars_eq h2]
        exact ⟨by decide, by decide⟩
  have hm3 : ∀ c ∈ secretChars scalar, c ≠ '\n' ∧ c ≠ '\r' := by
    intro c hc
    rcases List.mem_append.mp hc with h | h
    · exact hlit4 c h
    · rw [mem_scalarChars_eq h]
      exact ⟨by decide, by decide⟩
  have hnl1 : ¬ '\n' ∈ ("# created: ".data ++ ts.data) := fun h => (hm1 _ h).1 rfl
  have hcr1 : ¬ '\r' ∈ ("# created: ".data ++ ts.data) := fun h => (hm1 _ h).2 rfl
  have hnl2 : ¬ '\n' ∈ ("# public key: ".data ++ recipientChars (toPublic scalar)) :=
    fun h => (hm2 _ h).1 rfl
  have hcr2 : ¬ '\r' ∈ ("# public key: ".data ++ recipientChars (toPublic scalar)) :=
    fun h => (hm2 _ h).2 rfl
  have hnl3 : ¬ '\n' ∈ secretChars scalar := fun h => (hm3 _ h).1 rfl
  have hcr3 : ¬ '\r' ∈ secretChars scalar := fun h => (hm3 _ h).2 rfl
  have hd : (generateKeyContent scalar ts).data =
      ("# created: ".data ++ ts.data) ++ '\n' ::
        (("# public key: ".data ++ recipientChars (toPublic scalar)) ++ '\n' ::
          (secretChars scalar ++ '\n' :: [])) := rfl
  have hlines : rustLines (generateKeyContent scalar ts).data =
      ["# created: ".data ++ ts.data,
       "# public key: ".data ++ recipientChars (toPublic scalar),
       secretChars scalar] := by
    rw [hd, rustLines_append _ _ hnl1, rustLines_append _ _ hnl2, rustLines_append _ _ hnl3]
    rw [stripTrailingCR_reverse _ hcr1, stripTrailingCR_reverse _ hcr2,
      stripTrailingCR_reverse _ hcr3]
    rfl
  have hsig1 : secretKeyMarker.isPrefixOf ("# created: ".data ++ ts.data) = false :=
    isPrefixOf_false_of_head_ne secretKeyMarker _ 'A' '#' (by decide) rfl (by decide)
  have hsig2 : secretKeyMarker.isPrefixOf
      ("# public key: ".data ++ recipientChars (toPublic scalar)) = false :=
    isPrefixOf_false_of_head_ne secretKeyMarker _ 'A' '#' (by decide) rfl (by decide)
  have hsig3 : secretKeyMarker.isPrefixOf (secretChars scalar) = true :=
    isPrefixOf_append_self _ _
  have hsigl : sigLines (generateKeyContent scalar ts) = [secretChars scalar] := by
    unfold sigLines
    rw [hlines]
    rw [List.filter_cons_of_neg (by rw [hsig1]; simp),
      List.filter_cons_of_neg (by rw [hsig2]; simp),
      List.filter_cons_of_pos hsig3, List.filter_nil]
  refine ⟨rfl, hlines, hsigl, rfl, rfl, ?_⟩
  have hread : fsRead (age_generate_key_fs fs p scalar ts true).2 p =
      some (utf8Encode (generateKeyContent scalar ts)) := by
    unfold age_generate_key_fs
    rw [if_pos rfl]
    exact fsRead_fsWrite_same _ _ _
  unfold age_extract_public_key_fs
  rw [hread]
  dsimp only
  rw [utf8DecodeString_utf8Encode]
  dsimp only
  have hall : ∀ l ∈ rustLines (generateKeyContent scalar ts).data,
      secretKeyMarker.isPrefixOf l = true → (x25519ParseIdentity l).isSome = true := by
    intro l hl hsig
    rw [hlines] at hl
    rcases List.mem_cons.mp hl with h | h
    · rw [h] at hsig; rw [hsig1] at hsig; exact absurd hsig (by simp)
    · rcases List.mem_cons.mp h with h2 | h2
      · rw [h2] at hsig; rw [hsig2] at hsig; exact absurd hsig (by simp)
      · rcases List.mem_cons.mp h2 with h3 | h3
        · rw [h3, x25519ParseIdentity_secretChars]; rfl
        · simp at h3
  unfold age_extract_public_key parse_identities_from_key_file
  rw [parseIdLines_all_parse _ hall]
  dsimp only
  have hfil : (rustLines (generateKeyContent scalar ts).data).filter
      (fun l => secretKeyMarker.isPrefixOf l) = [secretChars scalar] := hsigl
  rw [hfil]
  rw [show ([secretChars scalar].filterMap
    (fun l => (x25519ParseIdentity l).map AgeIdentity.x25519)) =
      [AgeIdentity.x25519 scalar] by
    simp [List.filterMap_cons, x25519ParseIdentity_secretChars]]
  simp only [List.isEmpty_cons, Bool.false_eq_true, if_false]
  rw [extractFirstRecipient_first (rustLines (generateKeyContent scalar ts).data)
    (secretChars scalar) [] hfil]
  rw [x25519ParseIdentity_secretChars]

/-- Witness for C10 with a concrete timestamp and scalar. -/
theorem generate_then_extract_witness :
    (∀ c ∈ ("2024-01-01" : String).data, c ≠ '\n' ∧ c ≠ '\r') ∧
    ((age_generate_key_fs ⟨[]⟩ "key.txt" 2 "2024-01-01" true).1 =
      Except.ok (recipientString (toPublic 2)) ∧
    rustLines (generateKeyContent 2 "2024-01-01").data =
      ["# created: ".data ++ ("2024-01-01" : String).data,
       "# public key: ".data ++ recipientChars (toPublic 2),
       secretChars 2] ∧
    sigLines (generateKeyContent 2 "2024-01-01") = [secretChars 2] ∧
    ("# created: ".data ++ ("2024-01-01" : String).data).head? = some '#' ∧
    ("# public key: ".data ++ recipientChars (toPublic 2)).head? = some '#' ∧
    age_extract_public_key_fs (age_generate_key_fs ⟨[]⟩ "key.txt" 2 "2024-01-01" true).2
      "key.txt" = Except.ok (recipientString (toPublic 2))) :=
  ⟨by decide, generate_then_extract ⟨[]⟩ "key.txt" 2 "2024-01-01" (by decide)⟩
